import Mathlib

/-!
Verification development for the OME-Zarr multiscale volume engine
(`src/map_data/zarr_grid.py`, `src/open.py`).

The Python source is shallowly embedded:

* Python `float` values are modelled as exact rationals (`ℚ`).  The only
  float operations the modelled code performs are division, subtraction,
  multiplication, absolute value, comparison, truncation to `int`, and
  `numpy.allclose`; all of these are exact on the inputs the claims are
  about (small integer ratios), so the rational model is faithful there.
  To keep every definition kernel-computable we route the rational
  arithmetic through `Rat.divInt` (the core `Rat.mul`/`Rat.sub`/`Rat.inv`
  are `@[irreducible]`); bridge lemmas identify the wrappers with the
  ordinary field operations.
* Python `int` is `ℤ`; `a % b` is floor-remainder (`Int.fmod` semantics,
  written out explicitly) and `a // b` is `Int.fdiv`, matching CPython.
* Fallible Python code becomes `Except PyErr`; each `PyErr` constructor
  names the Python exception class raised by the corresponding statement.
-/

/-- Python exception classes raised by the modelled code. -/
inductive PyErr where
  /-- `IndexError` (sequence index out of range, e.g. `steps[-1]` on `[]`). -/
  | indexError
  /-- `ZeroDivisionError` (`x % 0`, `x / 0`, `x // 0`). -/
  | zeroDivisionError
  /-- `ValueError` (invalid step / unknown scale / slice step zero). -/
  | valueError
  /-- `NotImplementedError` raised for anisotropically scaled input data
  (`zarr_grid.py` line 350). -/
  | notImplementedAnisotropic
  /-- `NotImplementedError` raised for non-integer scaling levels
  (`zarr_grid.py` line 356). -/
  | notImplementedNonInteger
  /-- `NotImplementedError` raised for a channel axis (`zarr_grid.py` line 142). -/
  | notImplementedChannel
  /-- `NotImplementedError` raised for a time axis (`zarr_grid.py` line 145). -/
  | notImplementedTime
  /-- `AttributeError` (attribute access on `None`). -/
  | attributeError
  /-- `TypeError` (subscripting `None`, or `str * float`). -/
  | typeError
deriving DecidableEq

/-- Numpy dtypes relevant to the model; `other` covers the rest. -/
inductive Dtype where
  | float16
  | float32
  | float64
  | int8
  | uint8
deriving DecidableEq

/-- A Python value that is either a number or a string (the type of
`UNITFACTOR.get(unit, "angstrom")`). -/
inductive PyVal where
  | num (q : ℚ)
  | str (s : String)
deriving DecidableEq

/-- A triple of rationals (a Python 3-tuple of floats, z-y-x order). -/
abbrev Q3 := ℚ × ℚ × ℚ

/-- A triple of integers (a Python 3-tuple of ints). -/
abbrev Int3 := ℤ × ℤ × ℤ

instance {ε α : Type} [DecidableEq ε] [DecidableEq α] : DecidableEq (Except ε α) :=
  fun x y =>
    match x, y with
    | .ok a, .ok b =>
        if h : a = b then .isTrue (by rw [h])
        else .isFalse (fun hc => h (Except.ok.inj hc))
    | .error a, .error b =>
        if h : a = b then .isTrue (by rw [h])
        else .isFalse (fun hc => h (Except.error.inj hc))
    | .ok _, .error _ => .isFalse (fun hc => Except.noConfusion hc)
    | .error _, .ok _ => .isFalse (fun hc => Except.noConfusion hc)

/-- Whether an `Except` computation succeeded. -/
def isOkE {ε α : Type} : Except ε α → Bool
  | .ok _ => true
  | .error _ => false

/-! Kernel-computable wrappers for the rational arithmetic used by the
model, together with bridge lemmas to the ordinary `ℚ` operations. -/
/-- Kernel-computable `a / b` on `ℚ` (agrees with `/`, including `b = 0 ↦ 0`). -/
def qdiv (a b : ℚ) : ℚ := Rat.divInt (a.num * (b.den : ℤ)) ((a.den : ℤ) * b.num)

/-- Kernel-computable `a * b` on `ℚ`. -/
def qmul (a b : ℚ) : ℚ := Rat.divInt (a.num * b.num) ((a.den : ℤ) * (b.den : ℤ))

/-- Kernel-computable `a - b` on `ℚ`. -/
def qsub (a b : ℚ) : ℚ :=
  Rat.divInt (a.num * (b.den : ℤ) - b.num * (a.den : ℤ)) ((a.den : ℤ) * (b.den : ℤ))

/-- Kernel-computable `a + b` on `ℚ`. -/
def qadd (a b : ℚ) : ℚ :=
  Rat.divInt (a.num * (b.den : ℤ) + b.num * (a.den : ℤ)) ((a.den : ℤ) * (b.den : ℤ))

/-- Kernel-computable `|a|` on `ℚ`. -/
def qabs (a : ℚ) : ℚ := if a.num < 0 then Rat.divInt (-a.num) (a.den : ℤ) else a

/-- Python `int(x)` on a float: truncation toward zero. -/
def pyTrunc (q : ℚ) : ℤ := Int.tdiv q.num (q.den : ℤ)

/-- Python `a % b` for ints: floor remainder (`a - b * (a // b)`). -/
def pyMod (a b : ℤ) : ℤ := a - b * Int.fdiv a b

/-! Pyramid validation (`WrappedZarrGrid.__init__`, `zarr_grid.py` lines
342-360): per-level relative steps, `numpy.allclose` checks, and integer
factor extraction. -/
/-- `numpy.allclose` default relative tolerance (`rtol=1e-05`). -/
def RTOL : ℚ := Rat.divInt 1 100000

/-- `numpy.allclose` default absolute tolerance (`atol=1e-08`). -/
def ATOL : ℚ := Rat.divInt 1 100000000

/-- One `numpy.isclose` comparison: `|a - b| <= atol + rtol * |b|`. -/
def npisclose (a b : ℚ) : Bool := decide (qabs (qsub a b) ≤ qadd ATOL (qmul RTOL (qabs b)))

/-- `numpy.allclose(v, b)` for a 3-vector `v` against a scalar `b`. -/
def allclose3 (v : Q3) (b : ℚ) : Bool :=
  npisclose v.1 b && npisclose v.2.1 b && npisclose v.2.2 b

/-- Python float division (`ZeroDivisionError` on a zero denominator). -/
def pyDivQ (a b : ℚ) : Except PyErr ℚ :=
  if b = 0 then .error .zeroDivisionError else .ok (qdiv a b)

/-- Validation of one level against the finest level's step
(`zarr_grid.py` lines 346-360): compute the componentwise relative step,
reject anisotropic or non-integer relative steps, and return the stored
integer factor tuple `(int(relstep[0]), int(relstep[1]), int(relstep[2]))`. -/
def validateRel (base s : Q3) : Except PyErr Int3 :=
  match pyDivQ s.1 base.1 with
  | .error e => .error e
  | .ok r1 =>
    match pyDivQ s.2.1 base.2.1 with
    | .error e => .error e
    | .ok r2 =>
      match pyDivQ s.2.2 base.2.2 with
      | .error e => .error e
      | .ok r3 =>
        if allclose3 (r1, r2, r3) r1 then
          if allclose3 (r1, r2, r3) ((pyTrunc r1 : ℤ) : ℚ) then
            .ok (pyTrunc r1, pyTrunc r2, pyTrunc r3)
          else .error .notImplementedNonInteger
        else .error .notImplementedAnisotropic

/-- The `for s in steps` validation loop of `WrappedZarrGrid.__init__`. -/
def relStepsLoop (base : Q3) : List Q3 → Except PyErr (List Int3)
  | [] => .ok []
  | s :: rest =>
    match validateRel base s with
    | .error e => .error e
    | .ok f =>
      match relStepsLoop base rest with
      | .error e => .error e
      | .ok fs => .ok (f :: fs)

/-- `base_step = steps[-1]` followed by the validation loop: the part of
`WrappedZarrGrid.__init__` that computes `self._rel_step_sizes`. -/
def computeRelSteps (steps : List Q3) : Except PyErr (List Int3) :=
  match steps.getLast? with
  | none => .error .indexError
  | some base => relStepsLoop base steps

/-! The level adapter (`ZarrGrid`, `zarr_grid.py` lines 251-317).  A
`ZarrGrid` wraps one zarr array; `read_matrix` performs a bounds-clamped
strided slice.  The model records the array's shape and dtype, and a read
returns the per-axis lists of sampled indices together with the result
dtype (the sampled values themselves play no role in any claim). -/
/-- A zarr array handle: shape in storage (z, y, x) order, and a dtype. -/
structure ZArray where
  shape : ℕ × ℕ × ℕ
  dtype : Dtype
deriving DecidableEq

/-- Reverse a 3-tuple (`t[::-1]`). -/
def rev3 {α : Type} (v : α × α × α) : α × α × α := (v.2.2, v.2.1, v.1)

/-- `self.size` of a `ZarrGrid`: the array shape reversed to x-y-z order
(`zarr_grid.py` line 267). -/
def gridSize (g : ZArray) : Int3 :=
  ((g.shape.2.2 : ℤ), (g.shape.2.1 : ℤ), (g.shape.1 : ℤ))

/-- Per-axis origin clamp of `ZarrGrid.read_matrix`
(`zarr_grid.py` line 294): `min(sz[i] - 1, ijk_origin[i])`.
Note there is no lower clamp at 0. -/
def clampOriginComp (szi oi : ℤ) : ℤ := min (szi - 1) oi

/-- CPython normalization of a slice start/stop bound for a positive
step over an axis of extent `n`. -/
def sliceBoundPos (v : ℤ) (n : ℕ) : ℤ :=
  if v < 0 then max (v + n) 0 else min v n

/-- Number of indices selected by a slice with positive step from
normalized bounds `s` to `e`. -/
def sliceCntPos (s e step : ℤ) : ℕ := ((e - s + step - 1) / step).toNat

/-- Indices selected by a Python slice `start:stop:step` (`step > 0`) over
an axis of extent `n`, after CPython index normalization. -/
def sliceIdxPos (start stop step : ℤ) (n : ℕ) : List ℤ :=
  (List.range (sliceCntPos (sliceBoundPos start n) (sliceBoundPos stop n) step)).map
    (fun k : ℕ => sliceBoundPos start n + (k : ℤ) * step)

/-- Indices selected by a Python slice `start:stop:step` (`step < 0`) over
an axis of extent `n`, after CPython index normalization. -/
def sliceIdxNeg (start stop step : ℤ) (n : ℕ) : List ℤ :=
  let s := if start < 0 then max (start + n) (-1) else min start (n - 1)
  let e := if stop < 0 then max (stop + n) (-1) else min stop (n - 1)
  let cnt := ((s - e + (-step) - 1) / (-step)).toNat
  (List.range cnt).map (fun k : ℕ => s + (k : ℤ) * step)

/-- Python slice semantics for one axis; a zero step is a `ValueError`. -/
def pySlice (start stop step : ℤ) (n : ℕ) : Except PyErr (List ℤ) :=
  if step = 0 then .error .valueError
  else if 0 < step then .ok (sliceIdxPos start stop step n)
  else .ok (sliceIdxNeg start stop step n)

/-- The block returned by a level-adapter read: the per-axis sampled index
lists (storage order) and the dtype of the returned samples. -/
structure SampleBlock where
  idx0 : List ℤ
  idx1 : List ℤ
  idx2 : List ℤ
  dtype : Dtype
deriving DecidableEq

/-- `ZarrGrid.read_matrix` (`zarr_grid.py` lines 282-317): reverse the
caller-order arguments into storage order, clamp the origin from above,
compute the slice stop bounds (`min(sz[i], origin[i] + size[i])`, or the
full extent when `ijk_size` is `None`), take the strided slice, and
promote half-precision results to single precision. -/
def zarrGrid_read_matrix (g : ZArray) (ijk_origin : Int3)
    (ijk_size : Option Int3) (ijk_step : Int3) : Except PyErr SampleBlock :=
  let sz := rev3 (gridSize g)
  let o0 := rev3 ijk_origin
  let o : Int3 := (clampOriginComp sz.1 o0.1, clampOriginComp sz.2.1 o0.2.1,
    clampOriginComp sz.2.2 o0.2.2)
  let st := rev3 ijk_step
  let stop : Int3 :=
    match ijk_size with
    | none => sz
    | some s0 =>
      let s := rev3 s0
      (min sz.1 (o.1 + s.1), min sz.2.1 (o.2.1 + s.2.1), min sz.2.2 (o.2.2 + s.2.2))
  match pySlice o.1 stop.1 st.1 g.shape.1 with
  | .error e => .error e
  | .ok l1 =>
    match pySlice o.2.1 stop.2.1 st.2.1 g.shape.2.1 with
    | .error e => .error e
    | .ok l2 =>
      match pySlice o.2.2 stop.2.2 st.2.2 g.shape.2.2 with
      | .error e => .error e
      | .ok l3 =>
        .ok ⟨l1, l2, l3, if g.dtype = .float16 then .float32 else g.dtype⟩

/-! The resolution-selection multiplexer (`WrappedZarrGrid`,
`zarr_grid.py` lines 320-446). -/
/-- Python `a % b` for ints, with `ZeroDivisionError` on `b = 0`. -/
def pyModE (a b : ℤ) : Except PyErr ℤ :=
  if b = 0 then .error .zeroDivisionError else .ok (pyMod a b)

/-- Python `int(a / b)` on ints via float division, with
`ZeroDivisionError` on `b = 0` (`zarr_grid.py` line 422).  On the exact
divisions performed by the selection algorithm the rational model agrees
with float64. -/
def pyDivTrunc (a b : ℤ) : Except PyErr ℤ :=
  if b = 0 then .error .zeroDivisionError
  else .ok (pyTrunc (qdiv ((a : ℤ) : ℚ) ((b : ℤ) : ℚ)))

/-- Python `a // b` for ints (floor division), with `ZeroDivisionError`
on `b = 0`. -/
def pyFloorDiv (a b : ℤ) : Except PyErr ℤ :=
  if b = 0 then .error .zeroDivisionError else .ok (Int.fdiv a b)

/-- `all(minstep >= s for s in step)` (`zarr_grid.py` line 416, first
conjunct); comparisons never raise. -/
def stepGE (m : ℤ) (f : Int3) : Bool :=
  decide (f.1 ≤ m) && decide (f.2.1 ≤ m) && decide (f.2.2 ≤ m)

/-- `all(minstep % s == 0 for s in step)` (`zarr_grid.py` line 416, second
conjunct), with the generator's left-to-right short-circuit evaluation. -/
def modsAllZero (m : ℤ) (f : Int3) : Except PyErr Bool :=
  match pyModE m f.1 with
  | .error e => .error e
  | .ok r1 =>
    if r1 ≠ 0 then .ok false
    else
      match pyModE m f.2.1 with
      | .error e => .error e
      | .ok r2 =>
        if r2 ≠ 0 then .ok false
        else
          match pyModE m f.2.2 with
          | .error e => .error e
          | .ok r3 => .ok (decide (r3 = 0))

/-- The level-qualification test of the selection loop
(`zarr_grid.py` line 416), with `and` short-circuiting. -/
def levelQual (m : ℤ) (f : Int3) : Except PyErr Bool :=
  if stepGE m f then modsAllZero m f else .ok false

/-- The selection loop of `get_sampling_strategy` (`zarr_grid.py` lines
413-419): scan the levels coarsest-first and return the first qualifying
level together with its position, or `none` when no level qualifies. -/
def findLevel (m : ℤ) : List Int3 → Except PyErr (Option (ℕ × Int3))
  | [] => .ok none
  | f :: rest =>
    match levelQual m f with
    | .error e => .error e
    | .ok true => .ok (some (0, f))
    | .ok false =>
      match findLevel m rest with
      | .error e => .error e
      | .ok none => .ok none
      | .ok (some (i, g)) => .ok (some (i + 1, g))

/-- The `not all(s % minstep == 0 for s in ijk_step)` guard of
`get_sampling_strategy` (`zarr_grid.py` lines 404-407), with the
generator's left-to-right short-circuit evaluation. -/
def checkMultiples (m : ℤ) (req : Int3) : Except PyErr Unit :=
  match pyModE req.1 m with
  | .error e => .error e
  | .ok r1 =>
    if r1 ≠ 0 then .error .valueError
    else
      match pyModE req.2.1 m with
      | .error e => .error e
      | .ok r2 =>
        if r2 ≠ 0 then .error .valueError
        else
          match pyModE req.2.2 m with
          | .error e => .error e
          | .ok r3 => if r3 ≠ 0 then .error .valueError else .ok ()

/-- The residual step `tuple(int(ijks / fs) for ...)`
(`zarr_grid.py` line 422). -/
def residualStep (req fstep : Int3) : Except PyErr Int3 :=
  match pyDivTrunc req.1 fstep.1 with
  | .error e => .error e
  | .ok r1 =>
    match pyDivTrunc req.2.1 fstep.2.1 with
    | .error e => .error e
    | .ok r2 =>
      match pyDivTrunc req.2.2 fstep.2.2 with
      | .error e => .error e
      | .ok r3 => .ok (r1, r2, r3)

/-- The value returned by `get_sampling_strategy`: the selected grid's
position in `self.grids` (the source returns the grid object itself), the
residual step, and the selected level's factor tuple. -/
abbrev Strat := ℕ × Int3 × Int3

/-- `WrappedZarrGrid.get_sampling_strategy` (`zarr_grid.py` lines
395-425).  `relSteps` is `self._rel_step_sizes`, `nGrids` the length of
`self.grids`; the final index bound models `self.grids[grid_idx]`. -/
def get_sampling_strategy (relSteps : List Int3) (nGrids : ℕ) (ijk_step : Int3) :
    Except PyErr Strat :=
  match checkMultiples (min ijk_step.1 (min ijk_step.2.1 ijk_step.2.2)) ijk_step with
  | .error e => .error e
  | .ok _ =>
    match relSteps with
    | [] => .error .indexError
    | f0 :: _ =>
      match findLevel (min ijk_step.1 (min ijk_step.2.1 ijk_step.2.2)) relSteps with
      | .error e => .error e
      | .ok found =>
        match residualStep ijk_step (found.getD (0, f0)).2 with
        | .error e => .error e
        | .ok stepOut =>
          if (found.getD (0, f0)).1 < nGrids then
            .ok ((found.getD (0, f0)).1, stepOut, (found.getD (0, f0)).2)
          else .error .indexError

/-- The immutable state of a constructed `WrappedZarrGrid`:
`self._rel_step_sizes`, `self.grids` (each grid holding its array; the
per-grid origin/step attributes are unused by `read_matrix`), and the
precomputed `self._strats` table. -/
structure WState where
  relSteps : List Int3
  grids : List ZArray
  strats : List (Int3 × Strat)
deriving DecidableEq

/-- The `self._strats` dict comprehension (`zarr_grid.py` lines 391-393):
one `get_sampling_strategy` call per isotropic step in the given list. -/
def stratsLoop (relSteps : List Int3) (nGrids : ℕ) :
    List ℕ → Except PyErr (List (Int3 × Strat))
  | [] => .ok []
  | s :: rest =>
    match get_sampling_strategy relSteps nGrids ((s:ℤ), (s:ℤ), (s:ℤ)) with
    | .error e => .error e
    | .ok v =>
      match stratsLoop relSteps nGrids rest with
      | .error e => .error e
      | .ok tl => .ok ((((s:ℤ), (s:ℤ), (s:ℤ)), v) :: tl)

/-- `WrappedZarrGrid.__init__` (`zarr_grid.py` lines 327-393): default the
steps, validate the relative step sizes, index `arrays[-1]` and
`steps[i]` for each grid, and precompute the strategies for the isotropic
steps 1..16.  The construction of the ChimeraX `GridData` base object and
the per-grid `ZarrGrid` wrappers carries no further model state. -/
def wrappedZarrGrid_init (arrays : List ZArray) (stepsOpt : Option (List Q3)) :
    Except PyErr WState :=
  let steps := stepsOpt.getD (List.replicate arrays.length ((1:ℚ), (1:ℚ), (1:ℚ)))
  match computeRelSteps steps with
  | .error e => .error e
  | .ok rs =>
    if arrays.isEmpty then .error .indexError
    else if steps.length < arrays.length then .error .indexError
    else
      match stratsLoop rs arrays.length (List.range' 1 16) with
      | .error e => .error e
      | .ok strats => .ok ⟨rs, arrays, strats⟩

/-- Lookup in the `self._strats` dict (association list on the step key). -/
def lookupStrat (l : List (Int3 × Strat)) (k : Int3) : Option Strat :=
  (l.find? (fun p => decide (p.1 = k))).map (fun p => p.2)

/-- Lines 434-444 of `WrappedZarrGrid.read_matrix`: widen the size to at
least the step, look up or compute the sampling strategy (the dict
`.get` default argument is evaluated eagerly, so `get_sampling_strategy`
runs even on a cache hit), and divide origin and size by the level
factors.  Returns `(grid index, factors, local origin, local size,
residual step)`.  A `None` size is subscripted on line 435 and raises
`TypeError`. -/
def wrappedReadPlan (st : WState) (ijk_origin : Int3)
    (ijk_size : Option Int3) (ijk_step : Int3) :
    Except PyErr (ℕ × Int3 × Int3 × Int3 × Int3) :=
  match ijk_size with
  | none => .error .typeError
  | some sz0 =>
    let sz : Int3 :=
      (if sz0.1 < ijk_step.1 then ijk_step.1 else sz0.1,
       if sz0.2.1 < ijk_step.2.1 then ijk_step.2.1 else sz0.2.1,
       if sz0.2.2 < ijk_step.2.2 then ijk_step.2.2 else sz0.2.2)
    match get_sampling_strategy st.relSteps st.grids.length ijk_step with
    | .error e => .error e
    | .ok dflt =>
      let gsf := (lookupStrat st.strats ijk_step).getD dflt
      match pyFloorDiv ijk_origin.1 gsf.2.2.1 with
      | .error e => .error e
      | .ok o1 =>
        match pyFloorDiv ijk_origin.2.1 gsf.2.2.2.1 with
        | .error e => .error e
        | .ok o2 =>
          match pyFloorDiv ijk_origin.2.2 gsf.2.2.2.2 with
          | .error e => .error e
          | .ok o3 =>
            match pyFloorDiv sz.1 gsf.2.2.1 with
            | .error e => .error e
            | .ok s1 =>
              match pyFloorDiv sz.2.1 gsf.2.2.2.1 with
              | .error e => .error e
              | .ok s2 =>
                match pyFloorDiv sz.2.2 gsf.2.2.2.2 with
                | .error e => .error e
                | .ok s3 =>
                  .ok (gsf.1, gsf.2.2, (o1, o2, o3), (s1, s2, s3), gsf.2.1)

/-- `WrappedZarrGrid.read_matrix` (`zarr_grid.py` lines 427-446): compute
the plan and delegate to the selected grid's `read_matrix`. -/
def wrapped_read_matrix (st : WState) (ijk_origin : Int3)
    (ijk_size : Option Int3) (ijk_step : Int3) : Except PyErr SampleBlock :=
  match wrappedReadPlan st ijk_origin ijk_size ijk_step with
  | .error e => .error e
  | .ok (gidx, _, o, s, stp) =>
    match st.grids.get? gidx with
    | none => .error .indexError
    | some g => zarrGrid_read_matrix g o (some s) stp

/-- State-threaded `get_sampling_strategy`: the method reads
`self._rel_step_sizes` and `self.grids` and writes no attribute, so its
faithful state-passing translation returns the state unchanged alongside
the result. -/
def samplingStrategySt (st : WState) (ijk_step : Int3) :
    Except PyErr Strat × WState :=
  (get_sampling_strategy st.relSteps st.grids.length ijk_step, st)

/-- State-threaded `WrappedZarrGrid.read_matrix`: the method writes no
attribute (it rebinds only local names), so its faithful state-passing
translation returns the state unchanged alongside the result. -/
def wrappedReadMatrixSt (st : WState) (ijk_origin : Int3)
    (ijk_size : Option Int3) (ijk_step : Int3) :
    Except PyErr SampleBlock × WState :=
  (wrapped_read_matrix st ijk_origin ijk_size ijk_step, st)

/-! OME-Zarr metadata model (`zarr_grid.py` lines 17-102 and
`ZarrModel.__init__`, lines 125-240; `UNITFACTOR` from `src/open.py`
lines 15-20 — `zarr_grid.py` imports the same table from a constants
module that is not part of the tree). -/
/-- OME-Zarr axis metadata (`Axis` dataclass); `unit` is `None`-able. -/
structure Axis where
  name : String
  unit : Option String
  type : String
deriving DecidableEq

/-- OME-Zarr scale/translation transformation metadata
(`VectorScaleTransform` dataclass); scale values are modelled as floats. -/
structure VectorScaleTransform where
  scale : Option (List ℚ)
  translation : Option (List ℚ)
  type : String
deriving DecidableEq

/-- OME-Zarr dataset metadata (`MultiscaleDataset` dataclass). -/
structure MultiscaleDataset where
  path : String
  coordinateTransformations : List VectorScaleTransform
deriving DecidableEq

/-- OME-Zarr multiscales metadata (`Multiscales` dataclass). -/
structure Multiscales where
  axes : List Axis
  datasets : List MultiscaleDataset
deriving DecidableEq

/-- Root zarr attributes.  The JSON parsing of well-formed axis/dataset
entries is abstracted; the presence of the `multiscales` key is modelled
by the `Option`. -/
structure ZAttrs where
  multiscales : Option Multiscales
deriving DecidableEq

/-- `parse_multiscales` (`zarr_grid.py` lines 75-93): `None` when the
`multiscales` key is absent, the parsed structure otherwise. -/
def parse_multiscales (zattrs : ZAttrs) : Option Multiscales :=
  zattrs.multiscales

/-- The `UNITFACTOR` table (`src/open.py` lines 15-20): unit name to
angstrom conversion factor, base unit `"angstrom"` mapping to `1.0`. -/
def UNITFACTOR : List (String × ℚ) :=
  [("angstrom", 1), ("nm", 10), ("um", 10000), ("mm", 10000000)]

/-- `UNITFACTOR.get(key, "angstrom")` (`zarr_grid.py` lines 53-55): the
dict lookup whose default is the *string* `"angstrom"`, not a number. -/
def UNITFACTOR_get (key : Option String) (dflt : PyVal) : PyVal :=
  match key with
  | none => dflt
  | some k =>
    match UNITFACTOR.find? (fun p => decide (p.1 = k)) with
    | some p => .num p.2
    | none => dflt

/-- List subscript with Python `IndexError`. -/
def listGetE {α : Type} (l : List α) (i : ℕ) : Except PyErr α :=
  match l.get? i with
  | some v => .ok v
  | none => .error .indexError

/-- `get_unit_factor` (`zarr_grid.py` lines 51-57): per-axis factor from
`UNITFACTOR.get(ms.axes[i].unit, "angstrom")`. -/
def get_unit_factor (ms : Multiscales) : Except PyErr (PyVal × PyVal × PyVal) :=
  match listGetE ms.axes 0 with
  | .error e => .error e
  | .ok a0 =>
    match listGetE ms.axes 1 with
    | .error e => .error e
    | .ok a1 =>
      match listGetE ms.axes 2 with
      | .error e => .error e
      | .ok a2 =>
        .ok (UNITFACTOR_get a0.unit (.str "angstrom"),
             UNITFACTOR_get a1.unit (.str "angstrom"),
             UNITFACTOR_get a2.unit (.str "angstrom"))

/-- One dataset entry of `get_pixelsize` (`zarr_grid.py` lines 65-70):
`ds.coordinateTransformations[0].scale[i]`; subscripting a `None` scale
is a `TypeError`. -/
def pixelsizeOf (ds : MultiscaleDataset) : Except PyErr Q3 :=
  match listGetE ds.coordinateTransformations 0 with
  | .error e => .error e
  | .ok ct0 =>
    match ct0.scale with
    | none => .error .typeError
    | some sc =>
      match listGetE sc 0 with
      | .error e => .error e
      | .ok z =>
        match listGetE sc 1 with
        | .error e => .error e
        | .ok y =>
          match listGetE sc 2 with
          | .error e => .error e
          | .ok x => .ok (z, y, x)

/-- `get_pixelsize` (`zarr_grid.py` lines 60-72). -/
def get_pixelsize : List MultiscaleDataset → Except PyErr (List Q3)
  | [] => .ok []
  | ds :: rest =>
    match pixelsizeOf ds with
    | .error e => .error e
    | .ok p =>
      match get_pixelsize rest with
      | .error e => .error e
      | .ok ps => .ok (p :: ps)

/-- Python `ufac * s` where `ufac` came from `UNITFACTOR_get`: a number
multiplies, a string times a float raises `TypeError`
(`zarr_grid.py` line 170; scale entries are modelled as floats). -/
def pyMulVal (u : PyVal) (s : ℚ) : Except PyErr ℚ :=
  match u with
  | .num q => .ok (qmul q s)
  | .str _ => .error .typeError

/-- The `sizes` list comprehension of `ZarrModel.__init__`
(`zarr_grid.py` line 170). -/
def scaledSizes (ufacs : PyVal × PyVal × PyVal) : List Q3 → Except PyErr (List Q3)
  | [] => .ok []
  | s :: rest =>
    match pyMulVal ufacs.1 s.1 with
    | .error e => .error e
    | .ok z =>
      match pyMulVal ufacs.2.1 s.2.1 with
      | .error e => .error e
      | .ok y =>
        match pyMulVal ufacs.2.2 s.2.2 with
        | .error e => .error e
        | .ok x =>
          match scaledSizes ufacs rest with
          | .error e => .error e
          | .ok tl => .ok ((z, y, x) :: tl)

/-- Result of the modelled prefix of `ZarrModel.__init__`. -/
inductive InitOutcome where
  /-- The `if mlt is None: return` early exit (`zarr_grid.py` line 164). -/
  | earlyNoMultiscale
  /-- Execution reached the pixel-size computation (line 170) and
  continued to the volume construction, which is outside the model. -/
  | loaded (sizes : List Q3)
deriving DecidableEq

/-- Attribute access `mlt.axes` on an `Optional[Multiscales]`
(`zarr_grid.py` line 141): `AttributeError` when `mlt` is `None`. -/
def pyAxes (m : Option Multiscales) : Except PyErr (List Axis) :=
  match m with
  | none => .error .attributeError
  | some x => .ok x.axes

/-- Attribute access `mlt.datasets` (`zarr_grid.py` line 153). -/
def pyDatasets (m : Option Multiscales) : Except PyErr (List MultiscaleDataset) :=
  match m with
  | none => .error .attributeError
  | some x => .ok x.datasets

/-- `ZarrModel.__init__` (`zarr_grid.py` lines 125-240), modelled through
the pixel-size computation: parse the multiscales, read `mlt.axes`
*before* the `if mlt is None` guard, reject channel/time/non-space axes,
check requested scale paths, then (guard) early-return if `mlt` is
`None`, then compute unit factors and scaled pixel sizes.  The remainder
(cached store, volume construction) is outside the model. -/
def zarrModel_init (attrs : ZAttrs) (scales : Option (List String)) :
    Except PyErr InitOutcome :=
  let mlt := parse_multiscales attrs
  match pyAxes mlt with
  | .error e => .error e
  | .ok axes =>
    if axes.any (fun a => decide (a.type = "channel")) then .error .notImplementedChannel
    else if axes.any (fun a => decide (a.type = "time")) then .error .notImplementedTime
    else if axes.all (fun a => decide (a.type = "space")) = false then .error .valueError
    else
      match pyDatasets mlt with
      | .error e => .error e
      | .ok ds =>
        let avail := ds.map (fun d => d.path)
        let scalesOk :=
          match scales with
          | none => true
          | some ss => ss.all (fun sc => avail.contains sc)
        if scalesOk = false then .error .valueError
        else
          match mlt with
          | none => .ok .earlyNoMultiscale
          | some m =>
            match get_unit_factor m with
            | .error e => .error e
            | .ok ufacs =>
              match get_pixelsize m.datasets with
              | .error e => .error e
              | .ok sizes0 =>
                match scaledSizes ufacs sizes0 with
                | .error e => .error e
                | .ok sizes => .ok (.loaded sizes)

/-! Properties of the selection algorithm needed for the claims about
`get_sampling_strategy`. -/
/-- The qualification predicate of the spec: the level's factor is at
most the minimum requested step on every axis and divides it exactly. -/
def claimQualifies (m : ℤ) (f : Int3) : Prop :=
  (f.1 ≤ m ∧ f.2.1 ≤ m ∧ f.2.2 ≤ m) ∧ (f.1 ∣ m ∧ f.2.1 ∣ m ∧ f.2.2 ∣ m)

instance (m : ℤ) (f : Int3) : Decidable (claimQualifies m f) := by
  unfold claimQualifies
  exact inferInstance

/-- Stored factor tuples produced by the tolerance-based validation: a
tuple containing a zero component has all components in `{-1, 0, 1}`. -/
def zeroInvariant (f : Int3) : Prop :=
  (f.1 = 0 ∨ f.2.1 = 0 ∨ f.2.2 = 0) → (|f.1| ≤ 1 ∧ |f.2.1| ≤ 1 ∧ |f.2.2| ≤ 1)

/-- A multiscales descriptor whose axes carry a unit absent from the
`UNITFACTOR` table. -/
def msParsec : Multiscales :=
  ⟨[⟨"z", some "parsec", "space"⟩, ⟨"y", some "parsec", "space"⟩,
    ⟨"x", some "parsec", "space"⟩],
   [⟨"0", [⟨some [(2 : ℚ), (2 : ℚ), (2 : ℚ)], none, "scale"⟩]⟩]⟩

/-- The state of a constructed single-level pyramid with unit steps,
used to witness the selection theorems on concrete inputs. -/
def W1 : WState :=
  ⟨[(1, 1, 1)], [⟨(8, 8, 8), .float32⟩],
   (List.range' 1 16).map
     (fun s => (((s : ℤ), (s : ℤ), (s : ℤ)),
       (0, ((s : ℤ), (s : ℤ), (s : ℤ)), ((1 : ℤ), (1 : ℤ), (1 : ℤ)))))⟩

theorem qdiv_eq (a b : ℚ) : qdiv a b = a / b := by
  unfold qdiv
  rw [Rat.divInt_eq_div]
  rcases eq_or_ne b 0 with rfl | hb
  · simp
  · have hbn : (b.num : ℚ) ≠ 0 := by
      exact_mod_cast Rat.num_ne_zero.mpr hb
    have had : ((a.den : ℕ) : ℚ) ≠ 0 := by
      exact_mod_cast a.den_nz
    have hbd : ((b.den : ℕ) : ℚ) ≠ 0 := by
      exact_mod_cast b.den_nz
    conv_rhs => rw [← Rat.num_div_den a, ← Rat.num_div_den b]
    push_cast
    rw [div_div_div_eq]

theorem qmul_eq (a b : ℚ) : qmul a b = a * b := by
  unfold qmul
  rw [Rat.divInt_eq_div]
  have had : ((a.den : ℕ) : ℚ) ≠ 0 := by
    exact_mod_cast a.den_nz
  have hbd : ((b.den : ℕ) : ℚ) ≠ 0 := by
    exact_mod_cast b.den_nz
  conv_rhs => rw [← Rat.num_div_den a, ← Rat.num_div_den b]
  push_cast
  rw [div_mul_div_comm]

theorem qsub_eq (a b : ℚ) : qsub a b = a - b := by
  unfold qsub
  rw [Rat.divInt_eq_div]
  have had : ((a.den : ℕ) : ℚ) ≠ 0 := by
    exact_mod_cast a.den_nz
  have hbd : ((b.den : ℕ) : ℚ) ≠ 0 := by
    exact_mod_cast b.den_nz
  conv_rhs => rw [← Rat.num_div_den a, ← Rat.num_div_den b]
  push_cast
  rw [div_sub_div _ _ had hbd]
  ring

theorem qadd_eq (a b : ℚ) : qadd a b = a + b := by
  unfold qadd
  rw [Rat.divInt_eq_div]
  have had : ((a.den : ℕ) : ℚ) ≠ 0 := by
    exact_mod_cast a.den_nz
  have hbd : ((b.den : ℕ) : ℚ) ≠ 0 := by
    exact_mod_cast b.den_nz
  conv_rhs => rw [← Rat.num_div_den a, ← Rat.num_div_den b]
  push_cast
  rw [div_add_div _ _ had hbd]
  ring

theorem qabs_eq (a : ℚ) : qabs a = |a| := by
  unfold qabs
  split
  · rename_i h
    have ha : a < 0 := by
      by_contra hc
      push_neg at hc
      exact absurd (Rat.num_nonneg.mpr hc) (by omega)
    rw [abs_of_neg ha, Rat.divInt_eq_div]
    conv_rhs => rw [← Rat.num_div_den a]
    push_cast
    rw [neg_div]
  · rename_i h
    have ha : 0 ≤ a := by
      rw [← Rat.num_nonneg]
      omega
    rw [abs_of_nonneg ha]

theorem pyTrunc_nonneg {q : ℚ} (h : 0 ≤ q) : pyTrunc q = ⌊q⌋ := by
  unfold pyTrunc
  rw [Rat.floor_def]
  have hn : 0 ≤ q.num := Rat.num_nonneg.mpr h
  have hd : (0 : ℤ) ≤ (q.den : ℤ) := by positivity
  exact Int.tdiv_eq_ediv hn hd

theorem pyTrunc_neg {q : ℚ} (h : q < 0) : pyTrunc q = ⌈q⌉ := by
  unfold pyTrunc
  have hmain : Int.tdiv (-q).num ((-q).den : ℤ) = ⌊-q⌋ := by
    have h0 : (0:ℚ) ≤ -q := by linarith
    exact pyTrunc_nonneg h0
  rw [Rat.num_neg_eq_neg_num, Rat.den_neg_eq_den, Int.neg_tdiv, Int.floor_neg] at hmain
  omega

theorem pyTrunc_intCast (n : ℤ) : pyTrunc ((n : ℤ) : ℚ) = n := by
  rcases le_or_lt 0 ((n : ℤ) : ℚ) with h | h
  · rw [pyTrunc_nonneg h, Int.floor_intCast]
  · rw [pyTrunc_neg h, Int.ceil_intCast]

theorem pyTrunc_eq_zero_iff (q : ℚ) : pyTrunc q = 0 ↔ -1 < q ∧ q < 1 := by
  rcases lt_or_le q 0 with h | h
  · rw [pyTrunc_neg h]
    constructor
    · intro hz
      have h1 : q ≤ (0 : ℤ) := by
        have := Int.le_ceil q
        rw [hz] at this
        exact_mod_cast this
      have h2 : ((0:ℤ) : ℚ) - 1 < q := by
        have := Int.ceil_lt_add_one q
        rw [hz] at this
        push_cast at this ⊢
        linarith
      push_cast at h1 h2
      constructor <;> linarith
    · intro ⟨h1, _⟩
      have hc1 : ⌈q⌉ ≤ 0 := Int.ceil_le.mpr (by push_cast; linarith)
      have hc2 : (-1 : ℤ) < ⌈q⌉ := by
        rw [Int.lt_ceil]
        push_cast
        linarith
      omega
  · rw [pyTrunc_nonneg h]
    constructor
    · intro hz
      have h1 : ((0:ℤ) : ℚ) ≤ q := by exact_mod_cast h
      have h2 : q < (0:ℤ) + 1 := by
        have := Int.lt_floor_add_one q
        rw [hz] at this
        push_cast at this ⊢
        linarith
      push_cast at h2
      constructor <;> linarith
    · intro ⟨_, h2⟩
      have hf1 : 0 ≤ ⌊q⌋ := Int.floor_nonneg.mpr h
      have hf2 : ⌊q⌋ < 1 := by
        rw [Int.floor_lt]
        push_cast
        linarith
      omega

theorem pyMod_eq_zero_iff (a b : ℤ) : pyMod a b = 0 ↔ b ∣ a := by
  unfold pyMod
  constructor
  · intro h
    exact ⟨Int.fdiv a b, by omega⟩
  · rintro ⟨k, rfl⟩
    rcases eq_or_ne b 0 with rfl | hb
    · simp [Int.fdiv]
    · rw [Int.mul_fdiv_cancel_left _ hb]
      ring

theorem npisclose_iff (a b : ℚ) : npisclose a b = true ↔ |a - b| ≤ ATOL + RTOL * |b| := by
  unfold npisclose
  rw [decide_eq_true_eq, qabs_eq, qsub_eq, qadd_eq, qmul_eq, qabs_eq]

/-! Bounds for the positive-step slice semantics. -/
theorem sliceBoundPos_nonneg (v : ℤ) (n : ℕ) : 0 ≤ sliceBoundPos v n := by
  unfold sliceBoundPos
  split <;> omega

theorem sliceBoundPos_le (v : ℤ) (n : ℕ) : sliceBoundPos v n ≤ (n : ℤ) := by
  unfold sliceBoundPos
  split <;> omega

theorem sliceBoundPos_of_inrange {v : ℤ} {n : ℕ} (h0 : 0 ≤ v) (h1 : v ≤ (n : ℤ) - 1) :
    sliceBoundPos v n = v := by
  unfold sliceBoundPos
  split <;> omega

theorem pySlice_pos {start stop step : ℤ} (n : ℕ) (h : 0 < step) :
    pySlice start stop step n = .ok (sliceIdxPos start stop step n) := by
  unfold pySlice
  rw [if_neg (by omega), if_pos h]

theorem sliceIdxPos_mem {start stop step : ℤ} {n : ℕ} (hst : 0 < step) :
    ∀ x ∈ sliceIdxPos start stop step n,
      sliceBoundPos start n ≤ x ∧ x < sliceBoundPos stop n := by
  intro x hx
  unfold sliceIdxPos at hx
  simp only [List.mem_map, List.mem_range] at hx
  obtain ⟨k, hk, rfl⟩ := hx
  have hq : (k : ℤ) <
      (sliceBoundPos stop n - sliceBoundPos start n + step - 1) / step := by
    unfold sliceCntPos at hk
    have h1 : ((k : ℕ) : ℤ) <
        ((((sliceBoundPos stop n - sliceBoundPos start n + step - 1) / step).toNat : ℕ) : ℤ) := by
      exact_mod_cast hk
    rw [Int.toNat_eq_max] at h1
    omega
  have hmul : ((k : ℤ) + 1) * step ≤
      sliceBoundPos stop n - sliceBoundPos start n + step - 1 :=
    (Int.le_ediv_iff_mul_le hst).mp (by omega)
  rw [add_mul, one_mul] at hmul
  constructor
  · have hk0 : 0 ≤ (k : ℤ) * step := mul_nonneg (by positivity) (by omega)
    linarith
  · linarith

theorem sliceIdxPos_mem_bounds {start stop step : ℤ} {n : ℕ} (hst : 0 < step) :
    ∀ x ∈ sliceIdxPos start stop step n, 0 ≤ x ∧ x ≤ (n : ℤ) - 1 := by
  intro x hx
  obtain ⟨h1, h2⟩ := sliceIdxPos_mem hst x hx
  have hb1 := sliceBoundPos_nonneg start n
  have hb2 := sliceBoundPos_le stop n
  omega

theorem sliceIdxPos_length {start stop step : ℤ} {n : ℕ} :
    (sliceIdxPos start stop step n).length =
      sliceCntPos (sliceBoundPos start n) (sliceBoundPos stop n) step := by
  simp only [sliceIdxPos, List.length_map, List.length_range]

theorem sliceCntPos_le {s e step : ℤ} (hst : 1 ≤ step) :
    (sliceCntPos s e step : ℤ) ≤ max 0 (e - s) := by
  unfold sliceCntPos
  rcases le_or_lt e s with h | h
  · have hlt : (e - s + step - 1) / step < 1 :=
      (Int.ediv_lt_iff_lt_mul (by omega)).mpr (by omega)
    omega
  · have hlt : (e - s + step - 1) / step < e - s + 1 := by
      rw [Int.ediv_lt_iff_lt_mul (by omega)]
      nlinarith [mul_le_mul_of_nonneg_left hst (by omega : (0:ℤ) ≤ e - s)]
    omega

theorem pyModE_ne_zero {d : ℤ} (x : ℤ) (hd : d ≠ 0) : pyModE x d = .ok (pyMod x d) := by
  simp [pyModE, hd]

theorem pyMod_one_right (x : ℤ) : pyMod x 1 = 0 :=
  (pyMod_eq_zero_iff x 1).mpr (one_dvd x)

theorem pyMod_neg_one_right (x : ℤ) : pyMod x (-1) = 0 :=
  (pyMod_eq_zero_iff x (-1)).mpr ⟨-x, by ring⟩

theorem stepGE_iff (m : ℤ) (f : Int3) :
    stepGE m f = true ↔ (f.1 ≤ m ∧ f.2.1 ≤ m ∧ f.2.2 ≤ m) := by
  unfold stepGE
  simp [Bool.and_eq_true, decide_eq_true_eq, and_assoc]

theorem dvd_ne_zero_of_pos {m d : ℤ} (hm : 1 ≤ m) (h : d ∣ m) : d ≠ 0 := by
  rintro rfl
  rw [zero_dvd_iff] at h
  omega

theorem pyModE_ok_iff {x d r : ℤ} : pyModE x d = .ok r ↔ (d ≠ 0 ∧ pyMod x d = r) := by
  unfold pyModE
  split
  · rename_i hd
    simp [hd]
  · rename_i hd
    simp [hd]

theorem modsAllZero_true_iff {m : ℤ} (hm : 1 ≤ m) (f : Int3) :
    modsAllZero m f = .ok true ↔ (f.1 ∣ m ∧ f.2.1 ∣ m ∧ f.2.2 ∣ m) := by
  obtain ⟨a, b, c⟩ := f
  have hm0 : m ≠ 0 := by omega
  dsimp only
  constructor
  · intro h
    unfold modsAllZero at h
    dsimp only at h
    split at h
    · exact absurd h (by simp)
    · rename_i r1 heq1
      obtain ⟨z1, hr1⟩ := pyModE_ok_iff.mp heq1
      split at h
      · exact absurd h (by simp)
      · rename_i hr1z
        push_neg at hr1z
        split at h
        · exact absurd h (by simp)
        · rename_i r2 heq2
          obtain ⟨z2, hr2⟩ := pyModE_ok_iff.mp heq2
          split at h
          · exact absurd h (by simp)
          · rename_i hr2z
            push_neg at hr2z
            split at h
            · exact absurd h (by simp)
            · rename_i r3 heq3
              obtain ⟨z3, hr3⟩ := pyModE_ok_iff.mp heq3
              simp only [Except.ok.injEq, decide_eq_true_eq] at h
              refine ⟨(pyMod_eq_zero_iff m a).mp (by omega),
                (pyMod_eq_zero_iff m b).mp (by omega),
                (pyMod_eq_zero_iff m c).mp (by omega)⟩
  · rintro ⟨d1, d2, d3⟩
    have z1 := dvd_ne_zero_of_pos hm d1
    have z2 := dvd_ne_zero_of_pos hm d2
    have z3 := dvd_ne_zero_of_pos hm d3
    have r1 := (pyMod_eq_zero_iff m a).mpr d1
    have r2 := (pyMod_eq_zero_iff m b).mpr d2
    have r3 := (pyMod_eq_zero_iff m c).mpr d3
    simp only [modsAllZero, pyModE_ne_zero m z1, pyModE_ne_zero m z2,
      pyModE_ne_zero m z3, r1, r2, r3]
    simp

theorem levelQual_true_iff {m : ℤ} (hm : 1 ≤ m) (f : Int3) :
    levelQual m f = .ok true ↔ claimQualifies m f := by
  unfold levelQual claimQualifies
  by_cases hge : stepGE m f = true
  · rw [if_pos hge, modsAllZero_true_iff hm f]
    have := (stepGE_iff m f).mp hge
    tauto
  · rw [if_neg hge]
    have hn := fun hc => hge ((stepGE_iff m f).mpr hc)
    constructor
    · intro hc
      exact absurd hc (by simp)
    · intro ⟨hc, _⟩
      exact absurd hc hn

theorem claimQualifies_one_units {f : Int3} (h : claimQualifies 1 f) :
    (f.1 = 1 ∨ f.1 = -1) ∧ (f.2.1 = 1 ∨ f.2.1 = -1) ∧ (f.2.2 = 1 ∨ f.2.2 = -1) := by
  obtain ⟨-, d1, d2, d3⟩ := h
  exact ⟨Int.isUnit_iff.mp (isUnit_of_dvd_one d1),
    Int.isUnit_iff.mp (isUnit_of_dvd_one d2),
    Int.isUnit_iff.mp (isUnit_of_dvd_one d3)⟩

theorem claimQualifies_of_units {m : ℤ} (hm : 1 ≤ m) {f : Int3}
    (h : (f.1 = 1 ∨ f.1 = -1) ∧ (f.2.1 = 1 ∨ f.2.1 = -1) ∧ (f.2.2 = 1 ∨ f.2.2 = -1)) :
    claimQualifies m f := by
  obtain ⟨a, b, c⟩ := f
  obtain ⟨h1, h2, h3⟩ := h
  dsimp only at h1 h2 h3
  unfold claimQualifies
  dsimp only
  refine ⟨⟨?_, ?_, ?_⟩, ?_, ?_, ?_⟩
  · rcases h1 with rfl | rfl <;> omega
  · rcases h2 with rfl | rfl <;> omega
  · rcases h3 with rfl | rfl <;> omega
  · rcases h1 with rfl | rfl
    · exact one_dvd m
    · exact ⟨-m, by ring⟩
  · rcases h2 with rfl | rfl
    · exact one_dvd m
    · exact ⟨-m, by ring⟩
  · rcases h3 with rfl | rfl
    · exact one_dvd m
    · exact ⟨-m, by ring⟩

theorem levelQual_isOk_of_inv {m : ℤ} (hm : 1 ≤ m) {f : Int3} (hinv : zeroInvariant f)
    (h1 : isOkE (levelQual 1 f) = true) : isOkE (levelQual m f) = true := by
  obtain ⟨a, b, c⟩ := f
  by_cases hge : stepGE m (a, b, c) = true
  · by_cases z : a = 0 ∨ b = 0 ∨ c = 0
    · -- a zero component: the invariant bounds all components, so the
      -- scan for step 1 already evaluated the zero modulus and raised
      obtain ⟨b1, b2, b3⟩ := hinv z
      dsimp only at b1 b2 b3
      rw [abs_le] at b1 b2 b3
      have hge1 : stepGE 1 (a, b, c) = true := by
        rw [stepGE_iff]
        dsimp only
        omega
      rw [levelQual, if_pos hge1] at h1
      exfalso
      rcases z with rfl | hz
      · simp [modsAllZero, pyModE, isOkE] at h1
      · have hane : a ≠ 0 ∧ (a = 1 ∨ a = -1) ∨ a = 0 := by omega
        rcases hane with ⟨hane, ha'⟩ | rfl
        · have r1 : pyMod 1 a = 0 := by
            rcases ha' with rfl | rfl
            · exact pyMod_one_right 1
            · exact pyMod_neg_one_right 1
          rcases hz with rfl | hz2
          · rw [modsAllZero] at h1
            rw [pyModE_ne_zero 1 hane, r1] at h1
            simp [pyModE, isOkE] at h1
          · subst hz2
            have hb' : b = 0 ∨ b = 1 ∨ b = -1 := by omega
            rcases hb' with rfl | hb'
            · rw [modsAllZero] at h1
              rw [pyModE_ne_zero 1 hane, r1] at h1
              simp [pyModE, isOkE] at h1
            · have r2 : pyMod 1 b = 0 := by
                rcases hb' with rfl | rfl
                · exact pyMod_one_right 1
                · exact pyMod_neg_one_right 1
              have hbne : b ≠ 0 := by rcases hb' with rfl | rfl <;> omega
              rw [modsAllZero] at h1
              rw [pyModE_ne_zero 1 hane, r1, pyModE_ne_zero 1 hbne, r2] at h1
              simp [pyModE, isOkE] at h1
        · simp [modsAllZero, pyModE, isOkE] at h1
    · -- no zero component: the moduli are all defined
      push_neg at z
      obtain ⟨za, zb, zc⟩ := z
      rw [levelQual, if_pos hge]
      rw [modsAllZero]
      rw [pyModE_ne_zero m za, pyModE_ne_zero m zb, pyModE_ne_zero m zc]
      by_cases r1 : pyMod m a = 0 <;> by_cases r2 : pyMod m b = 0 <;>
        simp [r1, r2, isOkE]
  · rw [levelQual, if_neg hge]
    rfl

theorem levelQual_false_of {m : ℤ} (hm : 1 ≤ m) {f : Int3} (hinv : zeroInvariant f)
    (h1 : isOkE (levelQual 1 f) = true) (hq : ¬ claimQualifies m f) :
    levelQual m f = .ok false := by
  have hok := levelQual_isOk_of_inv hm hinv h1
  match hv : levelQual m f with
  | .error e => rw [hv] at hok; simp [isOkE] at hok
  | .ok true => exact absurd ((levelQual_true_iff hm f).mp hv) hq
  | .ok false => rfl

theorem findLevel_first {m : ℤ} (hm : 1 ≤ m) :
    ∀ (rs : List Int3), (∀ f ∈ rs, zeroInvariant f) →
    isOkE (findLevel 1 rs) = true →
    (∃ f ∈ rs, claimQualifies m f) →
    ∃ i f, findLevel m rs = .ok (some (i, f)) ∧ rs.get? i = some f ∧
      claimQualifies m f ∧
      (∀ j g, j < i → rs.get? j = some g → ¬ claimQualifies m g) := by
  intro rs
  induction rs with
  | nil =>
    intro _ _ hex
    simp at hex
  | cons f rest ih =>
    intro hinv h1ok hex
    have hinvf : zeroInvariant f := hinv f (List.mem_cons_self f rest)
    have h1f : isOkE (levelQual 1 f) = true := by
      unfold findLevel at h1ok
      match hv : levelQual 1 f with
      | .error e => rw [hv] at h1ok; simp [isOkE] at h1ok
      | .ok _ => simp [isOkE]
    by_cases hq : claimQualifies m f
    · refine ⟨0, f, ?_, rfl, hq, ?_⟩
      · unfold findLevel
        rw [(levelQual_true_iff hm f).mpr hq]
      · intro j g hj
        omega
    · have hfalse : levelQual m f = .ok false := levelQual_false_of hm hinvf h1f hq
      have h1false : levelQual 1 f = .ok false := by
        match hv : levelQual 1 f with
        | .error e => rw [hv] at h1f; simp [isOkE] at h1f
        | .ok true =>
          have hu := (levelQual_true_iff le_rfl f).mp hv
          exact absurd (claimQualifies_of_units hm (claimQualifies_one_units hu)) hq
        | .ok false => rfl
      have h1rest : isOkE (findLevel 1 rest) = true := by
        unfold findLevel at h1ok
        rw [h1false] at h1ok
        match hv : findLevel 1 rest with
        | .error e => rw [hv] at h1ok; simp [isOkE] at h1ok
        | .ok _ => simp [isOkE]
      have hexrest : ∃ g ∈ rest, claimQualifies m g := by
        obtain ⟨g, hg, hgq⟩ := hex
        rcases List.mem_cons.mp hg with rfl | hg'
        · exact absurd hgq hq
        · exact ⟨g, hg', hgq⟩
      obtain ⟨i, g, heq, hget, hgq, hmin⟩ :=
        ih (fun x hx => hinv x (List.mem_cons_of_mem f hx)) h1rest hexrest
      refine ⟨i + 1, g, ?_, by simpa using hget, hgq, ?_⟩
      · unfold findLevel
        rw [hfalse, heq]
      · intro j g' hj hget'
        match j with
        | 0 =>
          simp at hget'
          subst hget'
          exact hq
        | j' + 1 =>
          exact hmin j' g' (by omega) (by simpa using hget')

/-! Properties of the construction-time validation. -/
theorem pyDivQ_ok_iff {a b r : ℚ} : pyDivQ a b = .ok r ↔ (b ≠ 0 ∧ a / b = r) := by
  unfold pyDivQ
  split
  · rename_i hb
    simp [hb]
  · rename_i hb
    simp [hb, qdiv_eq]

theorem validateRel_self {b : Q3} {f : Int3} (h : validateRel b b = .ok f) :
    f = (1, 1, 1) := by
  unfold validateRel at h
  split at h
  · exact absurd h (by simp)
  · rename_i r1 heq1
    obtain ⟨hb1, hr1⟩ := pyDivQ_ok_iff.mp heq1
    split at h
    · exact absurd h (by simp)
    · rename_i r2 heq2
      obtain ⟨hb2, hr2⟩ := pyDivQ_ok_iff.mp heq2
      split at h
      · exact absurd h (by simp)
      · rename_i r3 heq3
        obtain ⟨hb3, hr3⟩ := pyDivQ_ok_iff.mp heq3
        rw [div_self hb1] at hr1
        rw [div_self hb2] at hr2
        rw [div_self hb3] at hr3
        subst hr1
        subst hr2
        subst hr3
        have ht : pyTrunc 1 = 1 := by
          have := pyTrunc_intCast 1
          simpa using this
        split at h
        · split at h
          · rw [Except.ok.injEq] at h
            rw [← h, ht]
          · exact absurd h (by simp)
        · exact absurd h (by simp)

/-- The components of a factor tuple accepted by `validateRel`. -/
theorem validateRel_ok_elim {base s : Q3} {f : Int3} (h : validateRel base s = .ok f) :
    ∃ r1 r2 r3 : ℚ,
      f = (pyTrunc r1, pyTrunc r2, pyTrunc r3) ∧
      npisclose r1 ((pyTrunc r1 : ℤ) : ℚ) = true ∧
      npisclose r2 ((pyTrunc r1 : ℤ) : ℚ) = true ∧
      npisclose r3 ((pyTrunc r1 : ℤ) : ℚ) = true := by
  unfold validateRel at h
  split at h
  · exact absurd h (by simp)
  · rename_i r1 heq1
    split at h
    · exact absurd h (by simp)
    · rename_i r2 heq2
      split at h
      · exact absurd h (by simp)
      · rename_i r3 heq3
        split at h
        · rename_i hiso
          split at h
          · rename_i hint
            rw [Except.ok.injEq] at h
            unfold allclose3 at hint
            dsimp only at hint
            rw [Bool.and_eq_true, Bool.and_eq_true] at hint
            exact ⟨r1, r2, r3, h.symm, hint.1.1, hint.1.2, hint.2⟩
          · exact absurd h (by simp)
        · exact absurd h (by simp)

/-- Numeric values of the `numpy.allclose` tolerances. -/
theorem RTOL_eq : RTOL = 1 / 100000 := by
  rw [RTOL, Rat.divInt_eq_div]
  norm_num

theorem ATOL_eq : ATOL = 1 / 100000000 := by
  rw [ATOL, Rat.divInt_eq_div]
  norm_num

/-- A rational within `1/10` of an integer `N` with `|N| ≤ 1` truncates to
a value of absolute value at most 1. -/
theorem pyTrunc_abs_le_one_of_close {r : ℚ} {N : ℤ} (hN : |N| ≤ 1)
    (hc : |r - (N : ℚ)| ≤ 1 / 10) : |pyTrunc r| ≤ 1 := by
  rw [abs_le] at hN
  have hN' : N = -1 ∨ N = 0 ∨ N = 1 := by omega
  rw [abs_le] at hc
  rcases hN' with rfl | rfl | rfl
  · -- r ∈ [-1.1, -0.9]
    push_cast at hc
    have hr0 : r < 0 := by linarith
    rw [pyTrunc_neg hr0]
    have h1 : ⌈r⌉ ≤ 0 := Int.ceil_le.mpr (by push_cast; linarith)
    have h2 : (-2 : ℤ) < ⌈r⌉ := Int.lt_ceil.mpr (by push_cast; linarith)
    rw [abs_le]
    omega
  · -- r ∈ [-0.1, 0.1]
    push_cast at hc
    have : pyTrunc r = 0 := (pyTrunc_eq_zero_iff r).mpr ⟨by linarith, by linarith⟩
    rw [this]
    simp
  · -- r ∈ [0.9, 1.1]
    push_cast at hc
    have hr0 : (0 : ℚ) ≤ r := by linarith
    rw [pyTrunc_nonneg hr0]
    have h1 : 0 ≤ ⌊r⌋ := Int.floor_nonneg.mpr hr0
    have h2 : ⌊r⌋ < 2 := Int.floor_lt.mpr (by push_cast; linarith)
    rw [abs_le]
    omega

/-- An accepted level's stored factor tuple satisfies the zero-component
invariant: the `allclose` tolerances are small enough that a zero
component forces every component into `{-1, 0, 1}`. -/
theorem validateRel_zeroInvariant {base s : Q3} {f : Int3}
    (h : validateRel base s = .ok f) : zeroInvariant f := by
  obtain ⟨r1, r2, r3, hf, hc1, hc2, hc3⟩ := validateRel_ok_elim h
  set N := pyTrunc r1 with hNdef
  rw [npisclose_iff] at hc1 hc2 hc3
  rw [RTOL_eq, ATOL_eq] at hc1 hc2 hc3
  subst hf
  intro hz
  dsimp only at hz
  -- Step 1: some component truncates to zero, so |N| ≤ 1.
  have habsN : |N| ≤ 1 := by
    have key : ∀ r : ℚ, |r - (N : ℚ)| ≤ 1 / 100000000 + 1 / 100000 * |(N : ℚ)| →
        pyTrunc r = 0 → |N| ≤ 1 := by
      intro r hcr hr0
      have hrb : -1 < r ∧ r < 1 := (pyTrunc_eq_zero_iff r).mp hr0
      have habs : |(N : ℚ)| ≤ |(N : ℚ) - r| + |r| := by
        calc |(N : ℚ)| = |((N : ℚ) - r) + r| := by ring_nf
        _ ≤ |(N : ℚ) - r| + |r| := abs_add _ _
      rw [abs_sub_comm] at habs
      have hrabs : |r| < 1 := abs_lt.mpr ⟨hrb.1, hrb.2⟩
      have hNq : |(N : ℚ)| < 2 := by
        have := hcr
        nlinarith [abs_nonneg ((N : ℚ))]
      have : ((|N| : ℤ) : ℚ) < 2 := by
        rw [Int.cast_abs]
        exact hNq
      exact_mod_cast Int.lt_add_one_iff.mp (by exact_mod_cast this)
    rcases hz with h0 | h0 | h0
    · exact key r1 hc1 h0
    · exact key r2 hc2 h0
    · exact key r3 hc3 h0
  -- Step 2: every component is within 1/10 of N, so all truncate small.
  have habsNq : |(N : ℚ)| ≤ 1 := by
    rw [← Int.cast_abs]
    exact_mod_cast habsN
  have hcl : ∀ r : ℚ, |r - (N : ℚ)| ≤ 1 / 100000000 + 1 / 100000 * |(N : ℚ)| →
      |r - (N : ℚ)| ≤ 1 / 10 := by
    intro r hcr
    nlinarith
  refine ⟨?_, ?_, ?_⟩
  · exact pyTrunc_abs_le_one_of_close habsN (hcl r1 hc1)
  · exact pyTrunc_abs_le_one_of_close habsN (hcl r2 hc2)
  · exact pyTrunc_abs_le_one_of_close habsN (hcl r3 hc3)

/-- Every factor tuple in the validated list comes from `validateRel`. -/
theorem relStepsLoop_mem {base : Q3} :
    ∀ {l : List Q3} {fs : List Int3}, relStepsLoop base l = .ok fs →
    ∀ f ∈ fs, ∃ s ∈ l, validateRel base s = .ok f := by
  intro l
  induction l with
  | nil =>
    intro fs h f hf
    unfold relStepsLoop at h
    rw [Except.ok.injEq] at h
    subst h
    simp at hf
  | cons s rest ih =>
    intro fs h f hf
    unfold relStepsLoop at h
    split at h
    · exact absurd h (by simp)
    · rename_i g heq
      split at h
      · exact absurd h (by simp)
      · rename_i gs heqs
        rw [Except.ok.injEq] at h
        subst h
        rcases List.mem_cons.mp hf with rfl | hf'
        · exact ⟨s, List.mem_cons_self s rest, heq⟩
        · obtain ⟨s', hs', hv⟩ := ih heqs f hf'
          exact ⟨s', List.mem_cons_of_mem s hs', hv⟩

/-- The last element of the validated list is the exact factor `(1,1,1)`
of the finest level (`base / base`). -/
theorem relStepsLoop_last {base : Q3} :
    ∀ {l : List Q3} {fs : List Int3}, relStepsLoop base l = .ok fs →
    l.getLast? = some base → fs ≠ [] ∧ fs.getLast? = some (1, 1, 1) := by
  intro l
  induction l with
  | nil =>
    intro fs _ hlast
    simp at hlast
  | cons s rest ih =>
    intro fs h hlast
    unfold relStepsLoop at h
    split at h
    · exact absurd h (by simp)
    · rename_i g heq
      split at h
      · exact absurd h (by simp)
      · rename_i gs heqs
        rw [Except.ok.injEq] at h
        subst h
        cases rest with
        | nil =>
          have hbase : s = base := by simpa using hlast
          subst hbase
          have hg : g = (1, 1, 1) := validateRel_self heq
          unfold relStepsLoop at heqs
          rw [Except.ok.injEq] at heqs
          subst heqs
          subst hg
          exact ⟨by simp, rfl⟩
        | cons r rest' =>
          have hlast' : (r :: rest').getLast? = some base := by
            rw [← List.getLast?_cons_cons]
            exact hlast
          obtain ⟨hne, hl⟩ := ih heqs hlast'
          cases gs with
          | nil => exact absurd rfl hne
          | cons g0 gs' =>
            refine ⟨by simp, ?_⟩
            rw [List.getLast?_cons_cons]
            exact hl

/-- `computeRelSteps` facts used by the selection claims. -/
theorem computeRelSteps_facts {steps : List Q3} {rs : List Int3}
    (h : computeRelSteps steps = .ok rs) :
    rs ≠ [] ∧ rs.getLast? = some (1, 1, 1) ∧ ∀ f ∈ rs, zeroInvariant f := by
  unfold computeRelSteps at h
  split at h
  · exact absurd h (by simp)
  · rename_i base hbase
    obtain ⟨hne, hl⟩ := relStepsLoop_last h hbase
    refine ⟨hne, hl, ?_⟩
    intro f hf
    obtain ⟨s, _, hv⟩ := relStepsLoop_mem h f hf
    exact validateRel_zeroInvariant hv

/-! Joint properties of construction and selection used by the claims. -/
theorem checkMultiples_eq {m : ℤ} (hm0 : m ≠ 0) (req : Int3) :
    checkMultiples m req =
      if m ∣ req.1 ∧ m ∣ req.2.1 ∧ m ∣ req.2.2 then .ok () else .error .valueError := by
  obtain ⟨a, b, c⟩ := req
  unfold checkMultiples
  rw [pyModE_ne_zero a hm0, pyModE_ne_zero b hm0, pyModE_ne_zero c hm0]
  dsimp only
  by_cases d1 : m ∣ a
  · rw [(pyMod_eq_zero_iff a m).mpr d1, if_neg (fun hx => hx rfl)]
    by_cases d2 : m ∣ b
    · rw [(pyMod_eq_zero_iff b m).mpr d2, if_neg (fun hx => hx rfl)]
      by_cases d3 : m ∣ c
      · rw [(pyMod_eq_zero_iff c m).mpr d3, if_neg (fun hx => hx rfl),
          if_pos ⟨d1, d2, d3⟩]
      · have r3 : pyMod c m ≠ 0 := fun hz => d3 ((pyMod_eq_zero_iff c m).mp hz)
        rw [if_pos r3, if_neg (fun hx => d3 hx.2.2)]
    · have r2 : pyMod b m ≠ 0 := fun hz => d2 ((pyMod_eq_zero_iff b m).mp hz)
      rw [if_pos r2, if_neg (fun hx => d2 hx.2.1)]
  · have r1 : pyMod a m ≠ 0 := fun hz => d1 ((pyMod_eq_zero_iff a m).mp hz)
    rw [if_pos r1, if_neg (fun hx => d1 hx.1)]

theorem pyDivTrunc_exact {x d : ℤ} (hd : d ≠ 0) (hdvd : d ∣ x) :
    pyDivTrunc x d = .ok (Int.ediv x d) := by
  unfold pyDivTrunc
  rw [if_neg hd]
  congr 1
  obtain ⟨k, rfl⟩ := hdvd
  rw [qdiv_eq]
  have hcast : ((d * k : ℤ) : ℚ) / ((d : ℤ) : ℚ) = ((k : ℤ) : ℚ) := by
    have hdq : ((d : ℤ) : ℚ) ≠ 0 := Int.cast_ne_zero.mpr hd
    push_cast
    field_simp
  rw [hcast, pyTrunc_intCast]
  exact (Int.mul_ediv_cancel_left k hd).symm

theorem residualStep_exact {req f : Int3}
    (h1 : f.1 ≠ 0) (h2 : f.2.1 ≠ 0) (h3 : f.2.2 ≠ 0)
    (d1 : f.1 ∣ req.1) (d2 : f.2.1 ∣ req.2.1) (d3 : f.2.2 ∣ req.2.2) :
    residualStep req f =
      .ok (Int.ediv req.1 f.1, Int.ediv req.2.1 f.2.1, Int.ediv req.2.2 f.2.2) := by
  unfold residualStep
  rw [pyDivTrunc_exact h1 d1, pyDivTrunc_exact h2 d2, pyDivTrunc_exact h3 d3]

theorem wrappedInit_ok_elim {arrays : List ZArray} {steps : List Q3} {st : WState}
    (h : wrappedZarrGrid_init arrays (some steps) = .ok st) :
    computeRelSteps steps = .ok st.relSteps ∧ st.grids = arrays ∧
    isOkE (get_sampling_strategy st.relSteps arrays.length (1, 1, 1)) = true := by
  unfold wrappedZarrGrid_init at h
  simp only [Option.getD_some] at h
  cases hrs : computeRelSteps steps with
  | error e => rw [hrs] at h; exact absurd h (by simp)
  | ok rs =>
    rw [hrs] at h
    dsimp only at h
    by_cases hempty : arrays.isEmpty
    · rw [if_pos hempty] at h
      exact absurd h (by simp)
    · rw [if_neg hempty] at h
      by_cases hlen : steps.length < arrays.length
      · rw [if_pos hlen] at h
        exact absurd h (by simp)
      · rw [if_neg hlen] at h
        cases hstrats : stratsLoop rs arrays.length (List.range' 1 16) with
        | error e => rw [hstrats] at h; exact absurd h (by simp)
        | ok strats =>
          rw [hstrats] at h
          rw [Except.ok.injEq] at h
          subst h
          refine ⟨rfl, rfl, ?_⟩
          have hr16 : List.range' 1 16 = 1 :: List.range' 2 15 := rfl
          rw [hr16] at hstrats
          unfold stratsLoop at hstrats
          split at hstrats
          · exact absurd hstrats (by simp)
          · rename_i v hv
            rw [Nat.cast_one] at hv
            dsimp only [WState.relSteps]
            rw [hv]
            rfl

theorem gss_one_elim {rs : List Int3} {n : ℕ}
    (h : isOkE (get_sampling_strategy rs n (1, 1, 1)) = true) :
    isOkE (findLevel 1 rs) = true ∧
    ∀ i f, findLevel 1 rs = .ok (some (i, f)) → i < n := by
  unfold get_sampling_strategy at h
  dsimp only at h
  have hmin1 : min (1:ℤ) (min 1 1) = 1 := by decide
  rw [hmin1] at h
  have hcm1 : checkMultiples 1 ((1:ℤ), (1:ℤ), (1:ℤ)) = .ok () := by decide
  rw [hcm1] at h
  dsimp only at h
  cases rs with
  | nil => simp [isOkE] at h
  | cons f0 tl =>
    dsimp only at h
    cases hfl : findLevel 1 (f0 :: tl) with
    | error e => rw [hfl] at h; simp [isOkE] at h
    | ok found =>
      rw [hfl] at h
      dsimp only at h
      refine ⟨rfl, ?_⟩
      intro i f hif
      have hfound : found = some (i, f) := Except.ok.inj hif
      subst hfound
      dsimp only [Option.getD] at h
      cases hres : residualStep (1, 1, 1) f with
      | error e => rw [hres] at h; simp [isOkE] at h
      | ok stepOut =>
        rw [hres] at h
        dsimp only at h
        by_cases hlt : i < n
        · exact hlt
        · rw [if_neg hlt] at h
          simp [isOkE] at h

theorem min3_pos {a b c : ℤ} (ha : 1 ≤ a) (hb : 1 ≤ b) (hc : 1 ≤ c) :
    1 ≤ min a (min b c) :=
  le_min ha (le_min hb hc)

/-- The shared selection theorem: on any pyramid accepted by the full
constructor (validation and strategy precomputation), a request whose
components are at least 1 and multiples of the minimum selects the first
adequate level, with exact residual divisions. -/
theorem gss_spec {arrays : List ZArray} {steps : List Q3} {st : WState}
    (hinit : wrappedZarrGrid_init arrays (some steps) = .ok st)
    {a b c : ℤ} (ha : 1 ≤ a) (hb : 1 ≤ b) (hc : 1 ≤ c)
    (hda : min a (min b c) ∣ a) (hdb : min a (min b c) ∣ b)
    (hdc : min a (min b c) ∣ c) :
    ∃ i f r1 r2 r3,
      get_sampling_strategy st.relSteps st.grids.length (a, b, c) =
        .ok (i, (r1, r2, r3), f) ∧
      st.relSteps.get? i = some f ∧
      claimQualifies (min a (min b c)) f ∧
      (∀ j g, j < i → st.relSteps.get? j = some g →
        ¬ claimQualifies (min a (min b c)) g) ∧
      st.relSteps.getLast? = some (1, 1, 1) ∧
      claimQualifies (min a (min b c)) (1, 1, 1) ∧
      f.1 * r1 = a ∧ f.2.1 * r2 = b ∧ f.2.2 * r3 = c := by
  obtain ⟨hrs, hgrids, h1ok⟩ := wrappedInit_ok_elim hinit
  obtain ⟨hne, hlast, hinv⟩ := computeRelSteps_facts hrs
  have hm : 1 ≤ min a (min b c) := min3_pos ha hb hc
  have hm0 : min a (min b c) ≠ 0 := by omega
  have hlen : st.grids.length = arrays.length := by rw [hgrids]
  rw [← hlen] at h1ok
  obtain ⟨hfl1, hidx1⟩ := gss_one_elim h1ok
  have mem111 : ((1:ℤ), (1:ℤ), (1:ℤ)) ∈ st.relSteps :=
    List.mem_of_getLast?_eq_some hlast
  have qual111m : claimQualifies (min a (min b c)) (1, 1, 1) :=
    claimQualifies_of_units hm ⟨Or.inl rfl, Or.inl rfl, Or.inl rfl⟩
  have qual1111 : claimQualifies 1 ((1:ℤ), (1:ℤ), (1:ℤ)) :=
    claimQualifies_of_units le_rfl ⟨Or.inl rfl, Or.inl rfl, Or.inl rfl⟩
  obtain ⟨i1, f1, heq1, hget1, hq1, -⟩ :=
    findLevel_first le_rfl st.relSteps hinv hfl1 ⟨(1, 1, 1), mem111, qual1111⟩
  have i1lt : i1 < st.grids.length := hidx1 i1 f1 heq1
  obtain ⟨i, f, heqm, hget, hqm, hminimal⟩ :=
    findLevel_first hm st.relSteps hinv hfl1 ⟨(1, 1, 1), mem111, qual111m⟩
  have hile : i ≤ i1 := by
    by_contra hgt
    push_neg at hgt
    exact hminimal i1 f1 hgt hget1
      (claimQualifies_of_units hm (claimQualifies_one_units hq1))
  have hiltn : i < st.grids.length := lt_of_le_of_lt hile i1lt
  have z1 : f.1 ≠ 0 := dvd_ne_zero_of_pos hm hqm.2.1
  have z2 : f.2.1 ≠ 0 := dvd_ne_zero_of_pos hm hqm.2.2.1
  have z3 : f.2.2 ≠ 0 := dvd_ne_zero_of_pos hm hqm.2.2.2
  have dfa : f.1 ∣ a := hqm.2.1.trans hda
  have dfb : f.2.1 ∣ b := hqm.2.2.1.trans hdb
  have dfc : f.2.2 ∣ c := hqm.2.2.2.trans hdc
  have hres : residualStep (a, b, c) f =
      .ok (Int.ediv a f.1, Int.ediv b f.2.1, Int.ediv c f.2.2) :=
    residualStep_exact z1 z2 z3 dfa dfb dfc
  have hcm : checkMultiples (min a (min b c)) (a, b, c) = .ok () := by
    rw [checkMultiples_eq hm0]
    exact if_pos ⟨hda, hdb, hdc⟩
  refine ⟨i, f, Int.ediv a f.1, Int.ediv b f.2.1, Int.ediv c f.2.2, ?_, hget, hqm,
    hminimal, hlast, qual111m, Int.mul_ediv_cancel' dfa, Int.mul_ediv_cancel' dfb,
    Int.mul_ediv_cancel' dfc⟩
  match hrsv : st.relSteps with
  | [] => exact absurd hrsv hne
  | f0 :: tl =>
    rw [hrsv] at heqm
    unfold get_sampling_strategy
    rw [hcm, heqm]
    dsimp only [Option.getD]
    rw [hres]
    dsimp only
    rw [if_pos hiltn]

/-- C5 counterexample: the claim says origin components are clamped into
`[0, extent-1]`; in fact only the upper clamp exists.  On a 10-cube, a
caller origin component of `-5` stays `-5` (outside `[0, 9]`) and the
slice then samples index `5` (negative indices address from the end),
not index `0` as clamping to the range would give. -/
theorem zarrGrid_origin_not_clamped_below :
    clampOriginComp 10 (-5) = -5 ∧ ¬ (0 ≤ clampOriginComp 10 (-5)) ∧
    zarrGrid_read_matrix ⟨(10, 10, 10), .float32⟩ (0, 0, -5) (some (1, 1, 1)) (1, 1, 1) =
      .ok ⟨[5], [0], [0], .float32⟩ := by
  decide

/-- C5 (amended): each origin component is clamped individually from
above to `extent-1` for its axis; components below 0 are passed through
to the slice (which interprets them relative to the end of the axis)
rather than clamped to 0; and the read never raises on an out-of-range
origin component — for any origin and positive steps it returns a block
whose sampled indices never exceed `extent-1`. -/
theorem zarrGrid_origin_clamped_above (g : ZArray) (o : Int3) (szOpt : Option Int3)
    (stp : Int3) (h1 : 1 ≤ stp.1) (h2 : 1 ≤ stp.2.1) (h3 : 1 ≤ stp.2.2) :
    (∃ b, zarrGrid_read_matrix g o szOpt stp = .ok b ∧
      (∀ x ∈ b.idx0, x ≤ (g.shape.1 : ℤ) - 1) ∧
      (∀ x ∈ b.idx1, x ≤ (g.shape.2.1 : ℤ) - 1) ∧
      (∀ x ∈ b.idx2, x ≤ (g.shape.2.2 : ℤ) - 1)) ∧
    clampOriginComp (g.shape.1 : ℤ) o.2.2 ≤ (g.shape.1 : ℤ) - 1 ∧
    clampOriginComp (g.shape.2.1 : ℤ) o.2.1 ≤ (g.shape.2.1 : ℤ) - 1 ∧
    clampOriginComp (g.shape.2.2 : ℤ) o.1 ≤ (g.shape.2.2 : ℤ) - 1 := by
  constructor
  · unfold zarrGrid_read_matrix
    dsimp only [rev3, gridSize]
    cases szOpt with
    | none =>
      rw [pySlice_pos _ (by omega), pySlice_pos _ (by omega), pySlice_pos _ (by omega)]
      refine ⟨_, rfl, ?_, ?_, ?_⟩ <;>
        exact fun x hx => (sliceIdxPos_mem_bounds (by omega) x hx).2
    | some s0 =>
      rw [pySlice_pos _ (by omega), pySlice_pos _ (by omega), pySlice_pos _ (by omega)]
      refine ⟨_, rfl, ?_, ?_, ?_⟩ <;>
        exact fun x hx => (sliceIdxPos_mem_bounds (by omega) x hx).2
  · unfold clampOriginComp
    omega

/-- C5 witness: the amended theorem applied to the 10-cube with an
out-of-range origin component and unit steps. -/
theorem zarrGrid_origin_clamped_above_witness :
    (∃ b, zarrGrid_read_matrix ⟨(10, 10, 10), .float32⟩ (0, 0, -5)
        (some (1, 1, 1)) (1, 1, 1) = .ok b ∧
      (∀ x ∈ b.idx0, x ≤ ((10 : ℕ) : ℤ) - 1) ∧
      (∀ x ∈ b.idx1, x ≤ ((10 : ℕ) : ℤ) - 1) ∧
      (∀ x ∈ b.idx2, x ≤ ((10 : ℕ) : ℤ) - 1)) ∧
    clampOriginComp ((10 : ℕ) : ℤ) (-5) ≤ ((10 : ℕ) : ℤ) - 1 ∧
    clampOriginComp ((10 : ℕ) : ℤ) 0 ≤ ((10 : ℕ) : ℤ) - 1 ∧
    clampOriginComp ((10 : ℕ) : ℤ) 0 ≤ ((10 : ℕ) : ℤ) - 1 :=
  zarrGrid_origin_clamped_above ⟨(10, 10, 10), .float32⟩ (0, 0, -5) (some (1, 1, 1))
    (1, 1, 1) (by decide) (by decide) (by decide)

/-- C6: a level-adapter read with in-range origin and positive steps
samples only indices in `[0, extent-1]` on every axis; the stop bound is
clamped so `origin + size` never exceeds the extent; the returned block
is no larger than the remaining extent from the origin on each axis; and
an omitted size behaves exactly like the full remaining extent from the
origin. -/
theorem zarrGrid_read_in_range_bounds (g : ZArray) (o : Int3) (sz : Int3) (stp : Int3)
    (ho1 : 0 ≤ o.1) (ho1' : o.1 ≤ (g.shape.2.2 : ℤ) - 1)
    (ho2 : 0 ≤ o.2.1) (ho2' : o.2.1 ≤ (g.shape.2.1 : ℤ) - 1)
    (ho3 : 0 ≤ o.2.2) (ho3' : o.2.2 ≤ (g.shape.1 : ℤ) - 1)
    (h1 : 1 ≤ stp.1) (h2 : 1 ≤ stp.2.1) (h3 : 1 ≤ stp.2.2) :
    (∃ b, zarrGrid_read_matrix g o (some sz) stp = .ok b ∧
      (∀ x ∈ b.idx0, 0 ≤ x ∧ x ≤ (g.shape.1 : ℤ) - 1) ∧
      (∀ x ∈ b.idx1, 0 ≤ x ∧ x ≤ (g.shape.2.1 : ℤ) - 1) ∧
      (∀ x ∈ b.idx2, 0 ≤ x ∧ x ≤ (g.shape.2.2 : ℤ) - 1) ∧
      (b.idx0.length : ℤ) ≤ (g.shape.1 : ℤ) - o.2.2 ∧
      (b.idx1.length : ℤ) ≤ (g.shape.2.1 : ℤ) - o.2.1 ∧
      (b.idx2.length : ℤ) ≤ (g.shape.2.2 : ℤ) - o.1) ∧
    zarrGrid_read_matrix g o none stp =
      zarrGrid_read_matrix g o
        (some ((g.shape.2.2 : ℤ) - o.1, (g.shape.2.1 : ℤ) - o.2.1,
          (g.shape.1 : ℤ) - o.2.2)) stp := by
  have hc1 : clampOriginComp (g.shape.1 : ℤ) o.2.2 = o.2.2 := by
    unfold clampOriginComp
    omega
  have hc2 : clampOriginComp (g.shape.2.1 : ℤ) o.2.1 = o.2.1 := by
    unfold clampOriginComp
    omega
  have hc3 : clampOriginComp (g.shape.2.2 : ℤ) o.1 = o.1 := by
    unfold clampOriginComp
    omega
  constructor
  · unfold zarrGrid_read_matrix
    dsimp only [rev3, gridSize]
    rw [hc1, hc2, hc3]
    rw [pySlice_pos _ (by omega), pySlice_pos _ (by omega), pySlice_pos _ (by omega)]
    have hlen : ∀ (o' stop' st' : ℤ) (n : ℕ), 0 ≤ o' → o' ≤ (n : ℤ) - 1 → 1 ≤ st' →
        stop' ≤ (n : ℤ) →
        ((sliceIdxPos o' stop' st' n).length : ℤ) ≤ (n : ℤ) - o' := by
      intro o' stop' st' n hn0 hn1 hstp hstop
      rw [sliceIdxPos_length]
      have hb1 : sliceBoundPos o' n = o' := sliceBoundPos_of_inrange hn0 hn1
      have hb2 := sliceBoundPos_le stop' n
      have := @sliceCntPos_le (sliceBoundPos o' n) (sliceBoundPos stop' n) st' hstp
      rw [hb1] at this ⊢
      omega
    refine ⟨_, rfl, ?_, ?_, ?_, ?_, ?_, ?_⟩
    · exact fun x hx => sliceIdxPos_mem_bounds (by omega) x hx
    · exact fun x hx => sliceIdxPos_mem_bounds (by omega) x hx
    · exact fun x hx => sliceIdxPos_mem_bounds (by omega) x hx
    · exact hlen _ _ _ _ ho3 ho3' (by omega) (by omega)
    · exact hlen _ _ _ _ ho2 ho2' (by omega) (by omega)
    · exact hlen _ _ _ _ ho1 ho1' (by omega) (by omega)
  · unfold zarrGrid_read_matrix
    dsimp only [rev3, gridSize]
    rw [hc1, hc2, hc3]
    have e1 : min ((g.shape.1 : ℕ) : ℤ) (o.2.2 + (((g.shape.1 : ℕ) : ℤ) - o.2.2)) =
        ((g.shape.1 : ℕ) : ℤ) := by omega
    have e2 : min ((g.shape.2.1 : ℕ) : ℤ) (o.2.1 + (((g.shape.2.1 : ℕ) : ℤ) - o.2.1)) =
        ((g.shape.2.1 : ℕ) : ℤ) := by omega
    have e3 : min ((g.shape.2.2 : ℕ) : ℤ) (o.1 + (((g.shape.2.2 : ℕ) : ℤ) - o.1)) =
        ((g.shape.2.2 : ℕ) : ℤ) := by omega
    rw [e1, e2, e3]

/-- C6 witness: the boundary-clamping theorem at a concrete 10-cube read
from origin `(9,0,0)` with an oversized request. -/
theorem zarrGrid_read_in_range_bounds_witness :
    (∃ b, zarrGrid_read_matrix ⟨(10, 10, 10), .float32⟩ (9, 0, 0)
        (some (100, 100, 100)) (1, 1, 1) = .ok b ∧
      (∀ x ∈ b.idx0, 0 ≤ x ∧ x ≤ ((10 : ℕ) : ℤ) - 1) ∧
      (∀ x ∈ b.idx1, 0 ≤ x ∧ x ≤ ((10 : ℕ) : ℤ) - 1) ∧
      (∀ x ∈ b.idx2, 0 ≤ x ∧ x ≤ ((10 : ℕ) : ℤ) - 1) ∧
      (b.idx0.length : ℤ) ≤ ((10 : ℕ) : ℤ) - 0 ∧
      (b.idx1.length : ℤ) ≤ ((10 : ℕ) : ℤ) - 0 ∧
      (b.idx2.length : ℤ) ≤ ((10 : ℕ) : ℤ) - 9) ∧
    zarrGrid_read_matrix ⟨(10, 10, 10), .float32⟩ (9, 0, 0) none (1, 1, 1) =
      zarrGrid_read_matrix ⟨(10, 10, 10), .float32⟩ (9, 0, 0)
        (some (((10 : ℕ) : ℤ) - 9, ((10 : ℕ) : ℤ) - 0, ((10 : ℕ) : ℤ) - 0)) (1, 1, 1) :=
  zarrGrid_read_in_range_bounds ⟨(10, 10, 10), .float32⟩ (9, 0, 0) (100, 100, 100)
    (1, 1, 1) (by decide) (by decide) (by decide) (by decide) (by decide) (by decide)
    (by decide) (by decide) (by decide)

/-- C9: if the block produced by the strided slice has half-precision
dtype it is promoted to single precision before being returned; any
other dtype is returned unchanged. -/
theorem zarrGrid_read_promotes_float16 (g : ZArray) (o : Int3) (szOpt : Option Int3)
    (stp : Int3) (b : SampleBlock) (h : zarrGrid_read_matrix g o szOpt stp = .ok b) :
    b.dtype = if g.dtype = .float16 then .float32 else g.dtype := by
  unfold zarrGrid_read_matrix at h
  cases szOpt
  all_goals
    dsimp only at h
    split at h
    · exact absurd h (by simp)
    · split at h
      · exact absurd h (by simp)
      · split at h
        · exact absurd h (by simp)
        · rw [Except.ok.injEq] at h
          rw [← h]

/-- C9 witness: a half-precision 2-cube read returns single precision. -/
theorem zarrGrid_read_promotes_float16_witness :
    zarrGrid_read_matrix ⟨(2, 2, 2), .float16⟩ (0, 0, 0) none (1, 1, 1) =
      .ok ⟨[0, 1], [0, 1], [0, 1], .float32⟩ ∧
    (SampleBlock.mk [0, 1] [0, 1] [0, 1] .float32).dtype =
      if (ZArray.mk (2, 2, 2) .float16).dtype = .float16 then .float32
      else (ZArray.mk (2, 2, 2) .float16).dtype :=
  ⟨by decide,
   zarrGrid_read_promotes_float16 ⟨(2, 2, 2), .float16⟩ (0, 0, 0) none (1, 1, 1)
     ⟨[0, 1], [0, 1], [0, 1], .float32⟩ (by decide)⟩

/-- C10: after construction, both multiplexer operations leave the
pyramid's state — the level list, the per-level factor tuples, and the
precomputed strategy table — unchanged, whether they return normally or
raise; the methods write no attribute, so their state-passing
translations return the state they were given. -/
theorem wrapped_ops_state_unchanged (st : WState) (o : Int3) (szOpt : Option Int3)
    (stp req : Int3) :
    (wrappedReadMatrixSt st o szOpt stp).2 = st ∧
    (samplingStrategySt st req).2 = st ∧
    (wrappedReadMatrixSt st o szOpt stp).2.relSteps = st.relSteps ∧
    (wrappedReadMatrixSt st o szOpt stp).2.grids = st.grids ∧
    (wrappedReadMatrixSt st o szOpt stp).2.strats = st.strats ∧
    (samplingStrategySt st req).2.relSteps = st.relSteps ∧
    (samplingStrategySt st req).2.grids = st.grids ∧
    (samplingStrategySt st req).2.strats = st.strats :=
  ⟨rfl, rfl, rfl, rfl, rfl, rfl, rfl, rfl⟩

/-- C8: when the root attributes lack the `multiscales` key,
`parse_multiscales` returns `None` without error, but `ZarrModel.__init__`
reads `mlt.axes` before its `if mlt is None: return` guard, so
construction raises `AttributeError` and the early-return branch is
unreachable for every input. -/
theorem zarrModel_init_none_guard_dead :
    (∀ (attrs : ZAttrs) (scales : Option (List String)), attrs.multiscales = none →
      parse_multiscales attrs = none ∧
      zarrModel_init attrs scales = .error .attributeError) ∧
    (∀ (attrs : ZAttrs) (scales : Option (List String)),
      zarrModel_init attrs scales ≠ .ok .earlyNoMultiscale) := by
  constructor
  · intro attrs scales h
    obtain ⟨mlt⟩ := attrs
    dsimp only [ZAttrs.multiscales] at h
    subst h
    exact ⟨rfl, rfl⟩
  · intro attrs scales h
    obtain ⟨mlt⟩ := attrs
    cases mlt with
    | none => exact absurd h (by simp [zarrModel_init, parse_multiscales, pyAxes])
    | some m =>
      unfold zarrModel_init parse_multiscales pyAxes pyDatasets at h
      dsimp only at h
      split at h
      · exact absurd h (by simp)
      · split at h
        · exact absurd h (by simp)
        · split at h
          · exact absurd h (by simp)
          · split at h
            · exact absurd h (by simp)
            · split at h
              · exact absurd h (by simp)
              · split at h
                · exact absurd h (by simp)
                · split at h
                  · exact absurd h (by simp)
                  · exact InitOutcome.noConfusion (Except.ok.inj h)

/-- C8 witness: a store without `multiscales` parses to `None` and
construction raises `AttributeError`, never taking the early return. -/
theorem zarrModel_init_none_guard_dead_witness :
    parse_multiscales ⟨none⟩ = none ∧
    zarrModel_init ⟨none⟩ none = .error .attributeError ∧
    zarrModel_init ⟨none⟩ none ≠ .ok .earlyNoMultiscale :=
  ⟨(zarrModel_init_none_guard_dead.1 ⟨none⟩ none rfl).1,
   (zarrModel_init_none_guard_dead.1 ⟨none⟩ none rfl).2,
   zarrModel_init_none_guard_dead.2 ⟨none⟩ none⟩

/-- C3 evaluation: for an axis unit not in the table, `get_unit_factor`
returns the *string* `"angstrom"` (the dict `.get` default), not the
base unit's numeric factor `1.0`, and `ZarrModel.__init__` then raises
`TypeError` when multiplying it with the float scale — pixel sizes are
not well-defined numbers for unknown units, contradicting the claim. -/
theorem get_unit_factor_unknown_unit_is_string :
    get_unit_factor msParsec =
      .ok (.str "angstrom", .str "angstrom", .str "angstrom") ∧
    PyVal.str "angstrom" ≠ PyVal.num 1 ∧
    zarrModel_init ⟨some msParsec⟩ none = .error .typeError := by
  refine ⟨by decide, by decide, by decide⟩

/-- C2: on a 3-level pyramid with factors (4,2,1) coarsest-first, the
multiplexer read plan for origin `(8,8,8)`, size `(4,4,4)`, step
`(4,4,4)` selects the coarsest level (index 0, factor `(4,4,4)`), remaps
the origin to `(2,2,2)` and the size to `(1,1,1)` in that level's local
coordinates, and delegates with residual step `(1,1,1)`. -/
theorem wrapped_read_coordinate_roundtrip :
    (wrappedZarrGrid_init
        [⟨(64, 64, 64), .float32⟩, ⟨(128, 128, 128), .float32⟩,
         ⟨(256, 256, 256), .float32⟩]
        (some [((4 : ℚ), (4 : ℚ), (4 : ℚ)), ((2 : ℚ), (2 : ℚ), (2 : ℚ)),
          ((1 : ℚ), (1 : ℚ), (1 : ℚ))])).map
      (fun st => wrappedReadPlan st (8, 8, 8) (some (4, 4, 4)) (4, 4, 4)) =
    .ok (.ok (0, (4, 4, 4), (2, 2, 2), (1, 1, 1), (1, 1, 1))) := by
  rfl

/-- C4 counterexample: the claim says a pyramid whose level factors are
(4,3,1) raises the non-integer-ratio rejection; in fact each factor is
computed relative to the *finest* level, so 4, 3 and 1 are all integral
and the construction succeeds. -/
theorem wrapped_init_accepts_4_3_1 :
    isOkE (wrappedZarrGrid_init
      [⟨(64, 64, 64), .float32⟩, ⟨(85, 85, 85), .float32⟩,
       ⟨(256, 256, 256), .float32⟩]
      (some [((4 : ℚ), (4 : ℚ), (4 : ℚ)), ((3 : ℚ), (3 : ℚ), (3 : ℚ)),
        ((1 : ℚ), (1 : ℚ), (1 : ℚ))])) = true := by
  decide

/-- C4 (amended): construction computes each level's step relative to
the finest level's step, raising the anisotropic rejection when the
relative-step components are not all within tolerance of the first, and
the non-integer rejection when they are not within tolerance of an
integer; per-axis relative scale (2,2,4) raises the anisotropic
rejection and a relative step of 3/2 raises the non-integer rejection,
while factors (4,3,1) relative to the finest level are all integral and
are accepted, the validated integer factor tuples being stored. -/
theorem wrapped_init_rejections :
    (wrappedZarrGrid_init
        [⟨(64, 64, 64), .float32⟩, ⟨(85, 85, 85), .float32⟩,
         ⟨(256, 256, 256), .float32⟩]
        (some [((4 : ℚ), (4 : ℚ), (4 : ℚ)), ((3 : ℚ), (3 : ℚ), (3 : ℚ)),
          ((1 : ℚ), (1 : ℚ), (1 : ℚ))])).map WState.relSteps =
      .ok [(4, 4, 4), (3, 3, 3), (1, 1, 1)] ∧
    wrappedZarrGrid_init [⟨(128, 128, 64), .float32⟩, ⟨(256, 256, 256), .float32⟩]
      (some [((2 : ℚ), (2 : ℚ), (4 : ℚ)), ((1 : ℚ), (1 : ℚ), (1 : ℚ))]) =
      .error .notImplementedAnisotropic ∧
    wrappedZarrGrid_init [⟨(170, 170, 170), .float32⟩, ⟨(256, 256, 256), .float32⟩]
      (some [((3 : ℚ), (3 : ℚ), (3 : ℚ)), ((2 : ℚ), (2 : ℚ), (2 : ℚ))]) =
      .error .notImplementedNonInteger := by
  refine ⟨by decide, by decide, by decide⟩

/-- C1: for every pyramid accepted at construction and every requested
step whose components are all at least 1 and each an integer multiple of
the step's minimum component, `get_sampling_strategy` returns (without
raising) the first coarsest-first level whose factor is at most
`min(step)` on every axis and divides `min(step)` exactly; the finest
level's stored factor is exactly `(1,1,1)` and always qualifies; and the
residual step is the requested step divided componentwise by the
selected level's factor, every division exact. -/
theorem sampling_strategy_first_adequate {arrays : List ZArray} {steps : List Q3}
    {st : WState} (hinit : wrappedZarrGrid_init arrays (some steps) = .ok st)
    (a b c : ℤ) (ha : 1 ≤ a) (hb : 1 ≤ b) (hc : 1 ≤ c)
    (hda : min a (min b c) ∣ a) (hdb : min a (min b c) ∣ b)
    (hdc : min a (min b c) ∣ c) :
    ∃ i f r1 r2 r3,
      get_sampling_strategy st.relSteps st.grids.length (a, b, c) =
        .ok (i, (r1, r2, r3), f) ∧
      st.relSteps.get? i = some f ∧
      claimQualifies (min a (min b c)) f ∧
      (∀ j g, j < i → st.relSteps.get? j = some g →
        ¬ claimQualifies (min a (min b c)) g) ∧
      st.relSteps.getLast? = some (1, 1, 1) ∧
      claimQualifies (min a (min b c)) (1, 1, 1) ∧
      f.1 * r1 = a ∧ f.2.1 * r2 = b ∧ f.2.2 * r3 = c :=
  gss_spec hinit ha hb hc hda hdb hdc

/-- C1 witness: the selection theorem applied to the single-level
pyramid and the anisotropic request `(2,2,4)`. -/
theorem sampling_strategy_first_adequate_witness :
    ∃ i f r1 r2 r3,
      get_sampling_strategy W1.relSteps W1.grids.length (2, 2, 4) =
        .ok (i, (r1, r2, r3), f) ∧
      W1.relSteps.get? i = some f ∧
      claimQualifies (min 2 (min 2 4)) f ∧
      (∀ j g, j < i → W1.relSteps.get? j = some g →
        ¬ claimQualifies (min 2 (min 2 4)) g) ∧
      W1.relSteps.getLast? = some (1, 1, 1) ∧
      claimQualifies (min 2 (min 2 4)) (1, 1, 1) ∧
      f.1 * r1 = 2 ∧ f.2.1 * r2 = 2 ∧ f.2.2 * r3 = 4 :=
  @sampling_strategy_first_adequate [⟨(8, 8, 8), .float32⟩]
    [((1 : ℚ), (1 : ℚ), (1 : ℚ))] W1
    (by decide) 2 2 4 (by decide) (by decide) (by decide) (by decide) (by decide)
    (by decide)

/-- C7 counterexample: on an accepted two-level pyramid, the request
`(0,0,0)` — every component of which *is* an integer multiple of the
minimum component 0 — still raises (`ZeroDivisionError` from `s % 0`),
so the claimed "error iff some component is not a multiple of the
minimum" equivalence fails. -/
theorem sampling_strategy_zero_step_raises :
    (wrappedZarrGrid_init [⟨(128, 128, 128), .float32⟩, ⟨(256, 256, 256), .float32⟩]
        (some [((2 : ℚ), (2 : ℚ), (2 : ℚ)), ((1 : ℚ), (1 : ℚ), (1 : ℚ))])).map
      WState.relSteps = .ok [(2, 2, 2), (1, 1, 1)] ∧
    (min (0 : ℤ) (min 0 0) ∣ 0 ∧ min (0 : ℤ) (min 0 0) ∣ 0 ∧
      min (0 : ℤ) (min 0 0) ∣ 0) ∧
    get_sampling_strategy [(2, 2, 2), (1, 1, 1)] 2 (0, 0, 0) =
      .error .zeroDivisionError := by
  refine ⟨by decide, by decide, by decide⟩

/-- C7 (amended): on every pyramid accepted at construction, for a
requested step whose minimum component is at least 1, the selection
raises if and only if some component is not an integer multiple of the
minimum component; when it raises, the error is the per-request
`ValueError`; and the operation leaves the multiplexer's state
unchanged, so it remains usable for subsequent requests. -/
theorem sampling_strategy_invalid_step_iff {arrays : List ZArray} {steps : List Q3}
    {st : WState} (hinit : wrappedZarrGrid_init arrays (some steps) = .ok st)
    (a b c : ℤ) (hm : 1 ≤ min a (min b c)) :
    (isOkE (get_sampling_strategy st.relSteps st.grids.length (a, b, c)) = false ↔
      ¬ (min a (min b c) ∣ a ∧ min a (min b c) ∣ b ∧ min a (min b c) ∣ c)) ∧
    (¬ (min a (min b c) ∣ a ∧ min a (min b c) ∣ b ∧ min a (min b c) ∣ c) →
      get_sampling_strategy st.relSteps st.grids.length (a, b, c) =
        .error .valueError) ∧
    (samplingStrategySt st (a, b, c)).2 = st := by
  have herr : ¬ (min a (min b c) ∣ a ∧ min a (min b c) ∣ b ∧ min a (min b c) ∣ c) →
      get_sampling_strategy st.relSteps st.grids.length (a, b, c) =
        .error .valueError := by
    intro hnd
    unfold get_sampling_strategy
    dsimp only
    rw [checkMultiples_eq (by omega)]
    rw [if_neg (by dsimp only; exact hnd)]
  refine ⟨?_, herr, rfl⟩
  constructor
  · intro hfail
    by_contra hdd
    obtain ⟨i, f, r1, r2, r3, heq, -⟩ :=
      gss_spec hinit (le_trans hm (min_le_left a (min b c)))
        (le_trans hm (le_trans (min_le_right a (min b c)) (min_le_left b c)))
        (le_trans hm (le_trans (min_le_right a (min b c)) (min_le_right b c)))
        hdd.1 hdd.2.1 hdd.2.2
    rw [heq] at hfail
    simp [isOkE] at hfail
  · intro hnd
    rw [herr hnd]
    rfl

/-- C7 witness: the amended equivalence applied to the single-level
pyramid and the valid anisotropic request `(2,4,4)`. -/
theorem sampling_strategy_invalid_step_iff_witness :
    ((isOkE (get_sampling_strategy W1.relSteps W1.grids.length (2, 4, 4)) = false ↔
      ¬ (min (2 : ℤ) (min 4 4) ∣ 2 ∧ min (2 : ℤ) (min 4 4) ∣ 4 ∧
        min (2 : ℤ) (min 4 4) ∣ 4)) ∧
    (¬ (min (2 : ℤ) (min 4 4) ∣ 2 ∧ min (2 : ℤ) (min 4 4) ∣ 4 ∧
        min (2 : ℤ) (min 4 4) ∣ 4) →
      get_sampling_strategy W1.relSteps W1.grids.length (2, 4, 4) =
        .error .valueError) ∧
    (samplingStrategySt W1 (2, 4, 4)).2 = W1) :=
  @sampling_strategy_invalid_step_iff [⟨(8, 8, 8), .float32⟩]
    [((1 : ℚ), (1 : ℚ), (1 : ℚ))] W1
    (by decide) 2 4 4 (by decide)

example : computeRelSteps [((4:ℚ),(4:ℚ),(4:ℚ)), ((2:ℚ),(2:ℚ),(2:ℚ)), ((1:ℚ),(1:ℚ),(1:ℚ))] =
    .ok [(4,4,4), (2,2,2), (1,1,1)] := by decide

example : computeRelSteps [((2:ℚ),(2:ℚ),(4:ℚ)), ((1:ℚ),(1:ℚ),(1:ℚ))] =
    .error .notImplementedAnisotropic := by decide

example : computeRelSteps [((3:ℚ),(3:ℚ),(3:ℚ)), ((2:ℚ),(2:ℚ),(2:ℚ))] =
    .error .notImplementedNonInteger := by decide

example : get_sampling_strategy [(4,4,4),(2,2,2),(1,1,1)] 3 (4,4,4) =
    .ok (0, (1,1,1), (4,4,4)) := by decide

example : get_sampling_strategy [(4,4,4),(2,2,2),(1,1,1)] 3 (2,2,4) =
    .ok (1, (1,1,2), (2,2,2)) := by decide

example : get_sampling_strategy [(4,4,4),(2,2,2),(1,1,1)] 3 (0,0,0) =
    .error .zeroDivisionError := by decide

example : get_sampling_strategy [(4,4,4),(2,2,2),(1,1,1)] 3 (2,3,4) =
    .error .valueError := by decide

example : isOkE (wrappedZarrGrid_init [⟨(64,64,64), .float32⟩, ⟨(128,128,128), .float32⟩,
      ⟨(256,256,256), .float32⟩]
      (some [((4:ℚ),(4:ℚ),(4:ℚ)), ((2:ℚ),(2:ℚ),(2:ℚ)), ((1:ℚ),(1:ℚ),(1:ℚ))])) = true := by
  decide
